import Mathlib

/-!
Verification development for the PII secure-persistence lambda
(`src/lambda/src/pii_encryption_lambda/lambda_function.py`,
`src/lambda/src/pii_encryption_lambda/database_operations.py`, and the
schema-generated variant `src/lambda/lambda_function_generated.py`).

The Python code is shallowly embedded: dictionaries become structures or
association lists, raised exceptions become `Except PyExc`, and the external
services (AWS KMS envelope encryption, the Fernet application cipher, and
base64) are modelled as an abstract `ExternalCrypto` record of invertible
encode/decode pairs.  Byte strings are abstracted to `String` (the utf-8
encode/decode round trip is folded into the abstract cipher round trips).
-/

namespace PII

/-- Modelled Python exception: carries the exception type name and message
(the two pieces the top-level handler serialises into the error envelope). -/
structure PyExc where
  ty : String
  msg : String
deriving Repr, DecidableEq

instance {ε α : Type} [DecidableEq ε] [DecidableEq α] : DecidableEq (Except ε α) :=
  fun x y =>
  match x, y with
  | .ok a, .ok b =>
    if h : a = b then isTrue (by rw [h]) else isFalse (by intro he; cases he; exact h rfl)
  | .error a, .error b =>
    if h : a = b then isTrue (by rw [h]) else isFalse (by intro he; cases he; exact h rfl)
  | .ok _, .error _ => isFalse (by intro h; cases h)
  | .error _, .ok _ => isFalse (by intro h; cases h)

/-- Abstract model of the external cryptographic services used by the lambda:
AWS KMS envelope encryption (`kms.encrypt`/`kms.decrypt`), base64, and the
Fernet application-layer cipher.  Decode directions are partial (`Option`);
each pair is assumed invertible, which is the modelling premise of the
round-trip claims. -/
structure ExternalCrypto where
  kmsEncrypt : String → String → String
  kmsDecrypt : String → Option String
  b64encode : String → String
  b64decode : String → Option String
  fernetEncrypt : String → String → String
  fernetDecrypt : String → String → Option String
  kms_roundtrip : ∀ keyId p, kmsDecrypt (kmsEncrypt keyId p) = some p
  b64_roundtrip : ∀ s, b64decode (b64encode s) = some s
  fernet_roundtrip : ∀ key p, fernetDecrypt key (fernetEncrypt key p) = some p
  -- base64 yields "" only on empty input, and a KMS CiphertextBlob is never
  -- empty, so a stored ciphertext is never the empty string:
  kms_ne_empty : ∀ keyId p, kmsEncrypt keyId p ≠ ""
  b64_ne_empty : ∀ s, s ≠ "" → b64encode s ≠ ""

/-- The `app_encryption_keys` secret: `current_version` plus the versioned
`level3_app_key_v{N}` entries (a partial map from version to key). -/
structure AppKeys where
  current_version : Nat
  key : Nat → Option String

/-! ## PIIClassifier -/

/-- Python `str.lower`, written on the character list (so that concrete
field names evaluate inside the kernel). -/
def pyLower (s : String) : String := ⟨s.data.map Char.toLower⟩

/-- Python `str.strip`: drop whitespace from both ends. -/
def pyStrip (s : String) : String :=
  ⟨((s.data.dropWhile Char.isWhitespace).reverse.dropWhile Char.isWhitespace).reverse⟩

/-- Python `str.endswith`, on the character list. -/
def pyEndsWith (s suffix : String) : Bool := suffix.data.isSuffixOf s.data

/-- Left-to-right replacement of every occurrence of `pat`, fuelled by the
input length (enough for any non-empty pattern, and the code only ever calls
it with the pattern `"_encrypted"`). -/
def replaceListAux (pat rep : List Char) : Nat → List Char → List Char
  | _, [] => []
  | 0, l => l
  | fuel + 1, c :: rest =>
    if pat.isPrefixOf (c :: rest) then
      rep ++ replaceListAux pat rep fuel ((c :: rest).drop pat.length)
    else c :: replaceListAux pat rep fuel rest

/-- Python `str.replace` (all occurrences). -/
def pyReplace (s pat rep : String) : String :=
  ⟨replaceListAux pat.data rep.data s.data.length s.data⟩

/-- Level-1 field names from `PIIClassifier.PII_LEVEL_MAPPING[1]`. -/
def level1Fields : List String :=
  ["email", "first_name", "last_name", "phone", "phone_number",
   "name", "username", "display_name"]

/-- Level-2 field names from `PIIClassifier.PII_LEVEL_MAPPING[2]`. -/
def level2Fields : List String :=
  ["address", "street_address", "city", "state", "zip_code", "postal_code",
   "date_of_birth", "dob", "birth_date", "ip_address", "location",
   "country", "region", "timezone"]

/-- Level-3 field names from `PIIClassifier.PII_LEVEL_MAPPING[3]`. -/
def level3Fields : List String :=
  ["ssn", "social_security_number", "bank_account", "account_number",
   "credit_card", "credit_card_number", "medical_record", "health_record",
   "passport_number", "driver_license", "tax_id", "national_id"]

/-- `PIIClassifier.classify_pii_level`: lower-case and strip the name, look it
up in the three static sets in order, default to level 1. -/
def classify_pii_level (field_name : String) : Nat :=
  let field_lower := pyStrip (pyLower field_name)
  if field_lower ∈ level1Fields then 1
  else if field_lower ∈ level2Fields then 2
  else if field_lower ∈ level3Fields then 3
  else 1

/-- Result of `PIIClassifier.get_encryption_requirements`. -/
structure EncryptionRequirements where
  level : Nat
  field_name : String
  requires_kms : Bool
  requires_app_encryption : Bool
  storage_suffix : String
deriving Repr, DecidableEq

/-- `PIIClassifier.get_encryption_requirements`. -/
def get_encryption_requirements (field_name : String) : EncryptionRequirements :=
  let level := classify_pii_level field_name
  { level := level
    field_name := field_name
    requires_kms := decide (level ≥ 2)
    requires_app_encryption := decide (level = 3)
    storage_suffix := if level > 1 then "_encrypted" else "" }

/-! ## EncryptionHandler -/

def level2_kms_alias : String := "alias/pii-level2"

def level3_kms_alias : String := "alias/pii-level3"

/-- `KeyError` raised when `keys['level3_app_key_v{version}']` is missing. -/
def keyErr (version : Nat) : PyExc :=
  ⟨"KeyError", "level3_app_key_v" ++ toString version⟩

/-- `EncryptionHandler.get_current_app_cipher`: look up the key for
`current_version`.  `keysE` models the cached result of `get_app_keys`
(which itself raises if the secret cannot be retrieved). -/
def get_current_app_cipher (keysE : Except PyExc AppKeys) : Except PyExc String := do
  let keys ← keysE
  match keys.key keys.current_version with
  | some k => pure k
  | none => throw (keyErr keys.current_version)

/-- `EncryptionHandler.get_app_cipher_for_version`. -/
def get_app_cipher_for_version (keysE : Except PyExc AppKeys) (version : Nat) :
    Except PyExc String := do
  let keys ← keysE
  match keys.key version with
  | some k => pure k
  | none => throw (keyErr version)

/-- The dictionary returned by `EncryptionHandler.encrypt_field`; keys that a
given branch does not set are `none`. -/
structure EncryptResult where
  value : Option String
  encrypted : Bool
  level : Nat
  field_name : String
  method : Option String
  app_key_version : Option Nat
  kms_key : Option String
deriving Repr, DecidableEq

/-- `EncryptionHandler.encrypt_field`.  A `None`/empty value short-circuits
before classification and before any cryptographic call (hence the result does
not depend on `crypto` or `keysE` in that case).  Level 1 passes through,
level 2 is KMS then base64, level 3 is Fernet (current key) then KMS then
base64. -/
def encrypt_field (crypto : ExternalCrypto) (keysE : Except PyExc AppKeys)
    (field_name : String) (value : Option String) : Except PyExc EncryptResult :=
  if value = none ∨ value = some "" then
    .ok ⟨none, false, 1, field_name, none, none, none⟩
  else
    let v := value.getD ""
    let requirements := get_encryption_requirements field_name
    let level := requirements.level
    if level = 1 then
      .ok ⟨some v, false, 1, field_name, some "rds_only", none, none⟩
    else if level = 2 then
      let encrypted_value := crypto.b64encode (crypto.kmsEncrypt level2_kms_alias v)
      .ok ⟨some encrypted_value, true, 2, field_name, some "kms_only", none,
           some level2_kms_alias⟩
    else if level = 3 then do
      let cipherKey ← get_current_app_cipher keysE
      let app_encrypted := crypto.fernetEncrypt cipherKey v
      let final_encrypted_value :=
        crypto.b64encode (crypto.kmsEncrypt level3_kms_alias app_encrypted)
      let keys ← keysE
      .ok ⟨some final_encrypted_value, true, 3, field_name, some "double_encryption",
           some keys.current_version, some level3_kms_alias⟩
    else
      -- unreachable: `classify_pii_level` only returns 1, 2 or 3.  (The Python
      -- function would fall off the end of the `try` and return `None`, which
      -- every caller would then crash on with a `TypeError`.)
      .error ⟨"TypeError", "NoneType object is not subscriptable"⟩

/-- Per-field metadata dictionary as consumed by `decrypt_field`: the handlers
build it with keys `level`, `method`, `app_key_version`, `kms_key` (and the
database read path with `level`, `app_key_version`, `kms_key_alias`); a field
set to `none` models an absent key.  `none` at the `Option FieldMeta` level
models Python `None` / the empty dict (both falsy). -/
structure FieldMeta where
  level : Option Nat
  app_key_version : Option Nat
  kms_key : Option String
  method : Option String
deriving Repr, DecidableEq

def b64Err : PyExc := ⟨"binascii.Error", "Invalid base64-encoded string"⟩

def kmsErr : PyExc := ⟨"InvalidCiphertextException", "KMS decryption failed"⟩

def fernetErr : PyExc := ⟨"InvalidToken", "Fernet decryption failed"⟩

/-- `EncryptionHandler.decrypt_field`.  `None`/empty ciphertext is returned
unchanged; the level is re-classified from the field name and then overridden
by `metadata['level']` when present; level 2 is base64-decode then KMS
decrypt; level 3 additionally Fernet-decrypts with the key for
`metadata.get('app_key_version', 1)`. -/
def decrypt_field (crypto : ExternalCrypto) (keysE : Except PyExc AppKeys)
    (field_name : String) (encrypted_value : Option String)
    (metadata : Option FieldMeta) : Except PyExc (Option String) :=
  if encrypted_value = none ∨ encrypted_value = some "" then
    .ok encrypted_value
  else
    let v := encrypted_value.getD ""
    let requirements := get_encryption_requirements field_name
    let level :=
      match metadata with
      | some m => match m.level with
        | some l => l
        | none => requirements.level
      | none => requirements.level
    if level = 1 then
      .ok (some v)
    else if level = 2 then do
      let ciphertext ← match crypto.b64decode v with
        | some c => pure c
        | none => throw b64Err
      let plaintext ← match crypto.kmsDecrypt ciphertext with
        | some p => pure p
        | none => throw kmsErr
      .ok (some plaintext)
    else if level = 3 then do
      let ciphertext ← match crypto.b64decode v with
        | some c => pure c
        | none => throw b64Err
      let inner ← match crypto.kmsDecrypt ciphertext with
        | some p => pure p
        | none => throw kmsErr
      let app_key_version :=
        match metadata with
        | some m => m.app_key_version.getD 1
        | none => 1
      let cipherKey ← get_app_cipher_for_version keysE app_key_version
      let decrypted ← match crypto.fernetDecrypt cipherKey inner with
        | some p => pure p
        | none => throw fernetErr
      .ok (some decrypted)
    else
      -- Python falls off the end and returns None for any other level value.
      .ok none

/-- The metadata dictionary the handlers attach to an encrypted field
(`handle_encrypt_operation` / `handle_create_user_operation`):
`{'level': r['level'], 'method': r['method'],
  'app_key_version': r.get('app_key_version'), 'kms_key': r.get('kms_key')}`. -/
def metaOfResult (r : EncryptResult) : FieldMeta :=
  ⟨some r.level, r.app_key_version, r.kms_key, r.method⟩

/-! ## Database model

The PostgreSQL tables are modelled as lists of rows.  User ids (uuids in the
real schema) are abstracted to the `next_id` counter.  A user row stores the
association list of columns that were actually inserted (`SELECT *` columns
that are NULL are abstracted away: the read path skips NULL values anyway). -/

/-- A row of `encryption_metadata`.  The package `_insert_metadata` writes
the first five columns (leaving `encryption_algorithm` NULL); the generated
`create_user` writes `encryption_algorithm` and leaves `app_key_version`
NULL. -/
structure MetaRow where
  user_id : Nat
  field_name : String
  pii_level : Option Nat
  app_key_version : Option Nat
  kms_key_alias : Option String
  encryption_algorithm : Option String
deriving Repr, DecidableEq

/-- A row of `encryption_audit` (columns written by `log_audit`). -/
structure AuditRow where
  user_id : Option Nat
  field_name : String
  pii_level : Nat
  operation : String
  accessed_by : String
  success : Bool
  error_message : Option String
deriving Repr, DecidableEq

/-- A row of `users`: generated id plus the inserted columns (a `none` value
models an inserted NULL; columns never inserted are absent). -/
structure UserRow where
  id : Nat
  cols : List (String × Option String)
deriving Repr, DecidableEq

/-- The database state. -/
structure DB where
  users : List UserRow
  meta : List MetaRow
  audit : List AuditRow
  next_id : Nat
deriving Repr, DecidableEq

/-- A connection with an open transaction: `base` is the last committed
state, `work` the uncommitted view the cursor operates on, `commits` counts
`conn.commit()` calls (instrumentation for the single-commit property). -/
structure Conn where
  base : DB
  work : DB
  commits : Nat
deriving Repr, DecidableEq

/-- Open a connection on a database state. -/
def Conn.open (db : DB) : Conn := ⟨db, db, 0⟩

/-- Execute a write inside the open transaction. -/
def Conn.exec (c : Conn) (f : DB → DB) : Conn := ⟨c.base, f c.work, c.commits⟩

/-- `conn.commit()`. -/
def Conn.commit (c : Conn) : Conn := ⟨c.work, c.work, c.commits + 1⟩

/-- `conn.rollback()`. -/
def Conn.rollback (c : Conn) : Conn := ⟨c.base, c.base, c.commits⟩

/-- Which database steps succeed; a `false` component makes the corresponding
`cursor.execute` / `conn.commit` / `psycopg2.connect` raise.  `insertMeta i`
governs the i-th metadata insert of a create. -/
structure DbOracle where
  connect : Bool
  insertUser : Bool
  insertMeta : Nat → Bool
  commit : Bool
  selectUser : Bool
  selectMeta : Bool
  selectList : Bool
  deleteExec : Bool
  selectAudit : Bool

def connErr : PyExc := ⟨"OperationalError", "could not connect to server"⟩

def dbErr : PyExc := ⟨"DatabaseError", "database error"⟩

/-! ## DatabaseManager.store_encrypted_user -/

/-- The static `field_mapping` allowlist inside `store_encrypted_user`:
incoming storage key to database column. -/
def field_mapping : List (String × String) :=
  [("email", "email"), ("first_name", "first_name"), ("last_name", "last_name"),
   ("phone", "phone"),
   ("address_encrypted", "address_encrypted"), ("dob_encrypted", "dob_encrypted"),
   ("date_of_birth_encrypted", "dob_encrypted"),
   ("ssn_encrypted", "ssn_encrypted"), ("bank_account_encrypted", "bank_account_encrypted"),
   ("credit_card_encrypted", "credit_card_encrypted")]

/-- The columns actually inserted into `users`: each input field that is in
`field_mapping` with a non-None value contributes its mapped column. -/
def insertCols (user_fields : List (String × Option String)) :
    List (String × Option String) :=
  user_fields.filterMap fun fv =>
    match field_mapping.lookup fv.1, fv.2 with
    | some col, some v => some (col, some v)
    | _, _ => none

/-- The payload `store_encrypted_user` receives: the `fields` and `metadata`
dictionaries built by the encrypt loop of the calling handler. -/
structure EncryptedPayload where
  fields : List (String × Option String)
  metadata : List (String × FieldMeta)
deriving Repr, DecidableEq

/-- The row `_insert_metadata` writes for one metadata entry
(`pii_level`, `app_key_version`, `kms_key_alias` from the dict; the
`encryption_algorithm` column is not in its column list, hence NULL). -/
def metaRowOf (uid : Nat) (field_name : String) (m : FieldMeta) : MetaRow :=
  ⟨uid, field_name, m.level, m.app_key_version, m.kms_key, none⟩

/-- The metadata-insert loop of `store_encrypted_user`: one
`_insert_metadata` per entry, the i-th of which may raise.  On a raise the
connection (with its uncommitted work) is returned together with the error. -/
def insertMetaRows (o : Nat → Bool) (uid : Nat) :
    List (String × FieldMeta) → Nat → Conn → (Except PyExc Unit) × Conn
  | [], _, c => (.ok (), c)
  | (f, m) :: rest, i, c =>
    if o i then
      insertMetaRows o uid rest (i + 1)
        (c.exec fun db => { db with meta := db.meta ++ [metaRowOf uid f m] })
    else
      (.error dbErr, c)

/-- `DatabaseManager.store_encrypted_user`: open a connection, insert the
user row (columns filtered through `field_mapping`), insert one metadata row
per entry of the `metadata` dict, commit; on any exception roll back.
Returns the Python result (user id or raised exception) and the final
connection (whose `base` is the visible committed database). -/
def store_encrypted_user (o : DbOracle) (db : DB) (enc : EncryptedPayload) :
    (Except PyExc Nat) × Conn :=
  if ¬ o.connect then
    -- `get_connection` raised: nothing was opened, nothing to roll back.
    (.error connErr, Conn.open db)
  else
    let c := Conn.open db
    let cols := insertCols enc.fields
    if cols.isEmpty then
      (.error ⟨"ValueError", "No valid fields to insert"⟩, c.rollback)
    else if ¬ o.insertUser then
      (.error dbErr, c.rollback)
    else
      let uid := c.work.next_id
      let c := c.exec fun db =>
        { db with users := db.users ++ [⟨uid, cols⟩], next_id := db.next_id + 1 }
      match insertMetaRows o.insertMeta uid enc.metadata 0 c with
      | (.error e, c) => (.error e, c.rollback)
      | (.ok _, c) =>
        if o.commit then (.ok uid, c.commit) else (.error dbErr, c.rollback)

/-! ## DatabaseManager.retrieve_encrypted_user -/

/-- The metadata dictionary built by `retrieve_encrypted_user` from the
`encryption_metadata` rows of one user:
`{row['field_name']: {'level': .., 'app_key_version': .., 'kms_key_alias': ..}}`.
(The `kms_key_alias` key lands in `FieldMeta.kms_key`; `decrypt_field` reads
neither.) -/
def metaDictOf (db : DB) (uid : Nat) : List (String × FieldMeta) :=
  (db.meta.filter fun r => r.user_id = uid).map fun r =>
    (r.field_name, ⟨r.pii_level, r.app_key_version, r.kms_key_alias, none⟩)

/-- `DatabaseManager.retrieve_encrypted_user`: select the user row (raising
`ValueError` when absent), drop the system fields, and build the metadata
dictionary. -/
def retrieve_encrypted_user (o : DbOracle) (db : DB) (uid : Nat) :
    Except PyExc (List (String × Option String) × List (String × FieldMeta)) :=
  if ¬ o.connect then .error connErr
  else if ¬ o.selectUser then .error dbErr
  else
    match db.users.find? fun u => u.id = uid with
    | none => .error ⟨"ValueError", "User with ID " ++ toString uid ++ " not found"⟩
    | some row =>
      if ¬ o.selectMeta then .error dbErr
      else .ok (row.cols, metaDictOf db uid)

/-! ## EncryptionHandler.log_audit -/

/-- The body of `log_audit` before its blanket `except`: connect, insert the
audit row, commit.  `ok` is the oracle for this particular audit write. -/
def log_audit_attempt (ok : Bool) (db : DB) (user_id : Option Nat)
    (field_name : String) (operation : String) (success : Bool)
    (error : Option String) : Except PyExc DB :=
  if ok then
    .ok { db with audit := db.audit ++
      [⟨user_id, field_name, classify_pii_level field_name, operation,
        "lambda-encryption-service", success, error⟩] }
  else .error dbErr

/-- `EncryptionHandler.log_audit`: every exception from the write is caught
and only logged, so the caller always receives a database state and never an
exception (the row is simply missing when the write failed). -/
def log_audit (ok : Bool) (db : DB) (user_id : Option Nat) (field_name : String)
    (operation : String) (success : Bool) (error : Option String) : DB :=
  match log_audit_attempt ok db user_id field_name operation success error with
  | .ok db2 => db2
  | .error _ => db

/-! ## Operation envelope and response envelope -/

/-- The lambda event.  Absent keys are `none`; `metadata` defaults to the
empty dict as in `event.get('metadata', {})`.  User ids (uuid strings in the
real system) are abstracted to the database id counter. -/
structure Event where
  operation : Option String
  data : Option (List (String × Option String))
  encrypted_data : Option (List (String × Option String))
  metadata : List (String × FieldMeta)
  user_id : Option Nat
  limit : Option Nat
  offset : Option Nat
deriving Repr, DecidableEq

/-- One entry of the `list_users` response. -/
structure ListedUser where
  id : Nat
  email : Option String
  first_name : Option String
  last_name : Option String
deriving Repr, DecidableEq

/-- The JSON body of the response envelope, one constructor per shape the
handlers serialise with `json.dumps`. -/
inductive Body where
  | err (error : String) (ty : String) (success : Bool)
  | encrypted (fields : List (String × Option String))
      (metadata : List (String × FieldMeta)) (success : Bool) (processed_fields : Nat)
  | decrypted (data : List (String × Option String)) (success : Bool)
      (processed_fields : Nat)
  | created (user_id : Nat) (success : Bool) (processed_fields : Nat) (message : String)
  | got (user_id : Nat) (data : List (String × Option String)) (success : Bool)
      (processed_fields : Nat)
  | listed (users : List ListedUser) (total : Nat) (limit : Nat) (offset : Nat)
      (has_more : Bool) (success : Bool)
  | deleted (user_id : Nat) (deleted_flag : Bool) (success : Bool) (message : String)
  | auditTrail (records : List AuditRow) (total : Nat) (user_id : Option Nat)
      (limit : Nat) (success : Bool)
  | health (kms : String) (secrets_manager : String) (database : String)
      (database_schema : String) (success : Bool)
deriving Repr, DecidableEq

/-- The `{statusCode, body}` response envelope. -/
structure Response where
  statusCode : Nat
  body : Body
deriving Repr, DecidableEq

/-! ## Operation handlers (`lambda_function.py`) -/

/-- The per-field encrypt loop shared verbatim by `handle_encrypt_operation`
and `handle_create_user_operation`: skip `None` values, encrypt, store level-1
results under the field name and higher levels under `name + "_encrypted"`
together with a metadata entry; re-raise any encryption failure. -/
def encryptLoop (crypto : ExternalCrypto) (keysE : Except PyExc AppKeys) :
    List (String × Option String) →
    Except PyExc (List (String × Option String) × List (String × FieldMeta))
  | [] => .ok ([], [])
  | (_, none) :: rest => encryptLoop crypto keysE rest
  | (f, some v) :: rest => do
    let r ← encrypt_field crypto keysE f (some v)
    let (fields, meta) ← encryptLoop crypto keysE rest
    if r.level = 1 then
      .ok ((f, r.value) :: fields, meta)
    else
      .ok ((f ++ "_encrypted", r.value) :: fields, (f, metaOfResult r) :: meta)

/-- `handle_encrypt_operation`. -/
def handle_encrypt_operation (crypto : ExternalCrypto) (keysE : Except PyExc AppKeys)
    (event : Event) : Except PyExc Response := do
  let data := event.data.getD []
  if data.isEmpty then
    throw ⟨"ValueError", "Missing 'data' in encrypt operation"⟩
  else do
    let (fields, meta) ← encryptLoop crypto keysE data
    .ok ⟨200, .encrypted fields meta true data.length⟩

/-- The per-field decrypt loop of `handle_decrypt_operation`: `_encrypted`
fields are decrypted with the metadata entry for the un-suffixed name
(defaulting to the empty dict); other fields pass through; failures re-raise. -/
def decryptOpLoop (crypto : ExternalCrypto) (keysE : Except PyExc AppKeys)
    (metadata : List (String × FieldMeta)) :
    List (String × Option String) → Except PyExc (List (String × Option String))
  | [] => .ok []
  | (_, none) :: rest => decryptOpLoop crypto keysE metadata rest
  | (f, some v) :: rest =>
    if pyEndsWith f "_encrypted" then do
      let original := pyReplace f "_encrypted" ""
      let fm := (metadata.lookup original).getD ⟨none, none, none, none⟩
      let dv ← decrypt_field crypto keysE original (some v) (some fm)
      let out ← decryptOpLoop crypto keysE metadata rest
      .ok ((original, dv) :: out)
    else do
      let out ← decryptOpLoop crypto keysE metadata rest
      .ok ((f, some v) :: out)

/-- `handle_decrypt_operation`. -/
def handle_decrypt_operation (crypto : ExternalCrypto) (keysE : Except PyExc AppKeys)
    (event : Event) : Except PyExc Response := do
  let encrypted_data := event.encrypted_data.getD []
  if encrypted_data.isEmpty then
    throw ⟨"ValueError", "Missing 'encrypted_data' in decrypt operation"⟩
  else do
    let out ← decryptOpLoop crypto keysE event.metadata encrypted_data
    .ok ⟨200, .decrypted out true encrypted_data.length⟩

/-- The audit loop at the end of `handle_create_user_operation`: one
best-effort `log_audit(user_id, field, 'encrypt')` per input field. -/
def auditEncryptLoop (audit : Nat → Bool) (uid : Nat) :
    List (String × Option String) → Nat → DB → DB
  | [], _, db => db
  | (f, _) :: rest, i, db =>
    auditEncryptLoop audit uid rest (i + 1)
      (log_audit (audit i) db (some uid) f "encrypt" true none)

/-- `handle_create_user_operation`: validate `data`, encrypt every field,
store atomically via `store_encrypted_user`, then best-effort audit rows. -/
def handle_create_user_operation (crypto : ExternalCrypto)
    (keysE : Except PyExc AppKeys) (o : DbOracle) (audit : Nat → Bool)
    (db : DB) (event : Event) : (Except PyExc Response) × DB :=
  let data := event.data.getD []
  if data.isEmpty then
    (.error ⟨"ValueError", "Missing 'data' in create_user operation"⟩, db)
  else
    match encryptLoop crypto keysE data with
    | .error e => (.error e, db)
    | .ok (fields, meta) =>
      match store_encrypted_user o db ⟨fields, meta⟩ with
      | (.error e, c) => (.error e, c.base)
      | (.ok uid, c) =>
        let db2 := auditEncryptLoop audit uid data 0 c.base
        (.ok ⟨200, .created uid true data.length
          "User created and encrypted successfully"⟩, db2)

/-- The per-field decrypt loop of `handle_get_user_operation`: like
`decryptOpLoop`, but a best-effort `log_audit(uid, field, 'decrypt')` follows
each successfully decrypted field.  A decryption failure is re-raised, which
aborts the whole read. -/
def decryptGetLoop (crypto : ExternalCrypto) (keysE : Except PyExc AppKeys)
    (audit : Nat → Bool) (uid : Nat) (metaDict : List (String × FieldMeta)) :
    List (String × Option String) → Nat → DB →
    (Except PyExc (List (String × Option String))) × DB
  | [], _, db => (.ok [], db)
  | (_, none) :: rest, i, db => decryptGetLoop crypto keysE audit uid metaDict rest i db
  | (f, some v) :: rest, i, db =>
    if pyEndsWith f "_encrypted" then
      let original := pyReplace f "_encrypted" ""
      let fm := (metaDict.lookup original).getD ⟨none, none, none, none⟩
      match decrypt_field crypto keysE original (some v) (some fm) with
      | .error e => (.error e, db)
      | .ok dv =>
        let db := log_audit (audit i) db (some uid) original "decrypt" true none
        let p := decryptGetLoop crypto keysE audit uid metaDict rest (i + 1) db
        (p.1.map fun out => (original, dv) :: out, p.2)
    else
      let p := decryptGetLoop crypto keysE audit uid metaDict rest i db
      (p.1.map fun out => (f, some v) :: out, p.2)

/-- `handle_get_user_operation`. -/
def handle_get_user_operation (crypto : ExternalCrypto)
    (keysE : Except PyExc AppKeys) (o : DbOracle) (audit : Nat → Bool)
    (db : DB) (event : Event) : (Except PyExc Response) × DB :=
  match event.user_id with
  | none => (.error ⟨"ValueError", "Missing 'user_id' in get_user operation"⟩, db)
  | some uid =>
    match retrieve_encrypted_user o db uid with
    | .error e => (.error e, db)
    | .ok (encrypted_data, metaDict) =>
      match decryptGetLoop crypto keysE audit uid metaDict encrypted_data 0 db with
      | (.error e, db2) => (.error e, db2)
      | (.ok out, db2) =>
        (.ok ⟨200, .got uid out true encrypted_data.length⟩, db2)

/-- `DatabaseManager.list_users`: the level-1 projection ordered newest
first, plus the total count. -/
def list_users (o : DbOracle) (db : DB) (limit offset : Nat) :
    Except PyExc (List UserRow × Nat) :=
  if ¬ o.connect then .error connErr
  else if ¬ o.selectList then .error dbErr
  else .ok ((db.users.reverse.drop offset).take limit, db.users.length)

/-- `handle_list_users_operation`. -/
def handle_list_users_operation (o : DbOracle) (db : DB) (event : Event) :
    Except PyExc Response := do
  let limit := event.limit.getD 100
  let offset := event.offset.getD 0
  let (rows, total) ← list_users o db limit offset
  let users := rows.map fun u =>
    ⟨u.id, (u.cols.lookup "email").join, (u.cols.lookup "first_name").join,
     (u.cols.lookup "last_name").join⟩
  .ok ⟨200, .listed users total limit offset (offset + users.length < total) true⟩

/-- `DatabaseManager.delete_user`: delete the row (metadata removed by the
`CASCADE` relationship), raising when the user does not exist; rollback on
failure leaves the database unchanged. -/
def delete_user (o : DbOracle) (db : DB) (uid : Nat) : (Except PyExc Bool) × DB :=
  if ¬ o.connect then (.error connErr, db)
  else if ¬ o.deleteExec then (.error dbErr, db)
  else if (db.users.find? fun u => u.id = uid).isNone then
    (.error ⟨"ValueError", "User " ++ toString uid ++ " not found"⟩, db)
  else if o.commit then
    (.ok true, { db with users := db.users.filter fun u => ¬ u.id = uid,
                         meta := db.meta.filter fun r => ¬ r.user_id = uid })
  else (.error dbErr, db)

/-- `handle_delete_user_operation`. -/
def handle_delete_user_operation (o : DbOracle) (db : DB) (event : Event) :
    (Except PyExc Response) × DB :=
  match event.user_id with
  | none => (.error ⟨"ValueError", "Missing 'user_id' in delete_user operation"⟩, db)
  | some uid =>
    match delete_user o db uid with
    | (.error e, db2) => (.error e, db2)
    | (.ok success, db2) =>
      (.ok ⟨200, .deleted uid success true
        "User deleted successfully (crypto-shredding completed)"⟩, db2)

/-- `DatabaseManager.get_audit_trail`: newest-first audit rows, optionally
filtered by user. -/
def get_audit_trail (o : DbOracle) (db : DB) (user_id : Option Nat)
    (limit : Nat) : Except PyExc (List AuditRow × Nat) :=
  if ¬ o.connect then .error connErr
  else if ¬ o.selectAudit then .error dbErr
  else
    let rows : List AuditRow := match user_id with
      | some uid => db.audit.filter fun r => r.user_id = some uid
      | none => db.audit
    let records := rows.reverse.take limit
    .ok (records, records.length)

/-- `handle_audit_trail_operation`. -/
def handle_audit_trail_operation (o : DbOracle) (db : DB) (event : Event) :
    Except PyExc Response := do
  let limit := event.limit.getD 100
  let (records, total) ← get_audit_trail o db event.user_id limit
  .ok ⟨200, .auditTrail records total event.user_id limit true⟩

/-- `handle_health_check`: each probe is individually caught, so the call
always returns 200 with a component-status map.  The probe outcomes are
driven by the oracles; the detailed `error: {e}` strings are abstracted to
`"error"` (resp. `"validation failed"`). -/
def handle_health_check (kmsDescribeOk : Bool) (keysE : Except PyExc AppKeys)
    (o : DbOracle) (schemaOk : Bool) : Response :=
  let kms := if kmsDescribeOk then "healthy" else "error"
  let secrets_manager := match keysE with
    | .ok _ => "healthy"
    | .error _ => "error"
  let database := if o.connect then "healthy" else "error"
  let database_schema :=
    if o.connect then (if schemaOk then "healthy" else "validation failed")
    else "validation failed"
  ⟨200, .health kms secrets_manager database database_schema true⟩

/-- Environment of external collaborators: crypto services, the cached
app-keys secret (or the exception its retrieval raised), database oracle and
health-probe oracles. -/
structure Env where
  crypto : ExternalCrypto
  keysE : Except PyExc AppKeys
  dbo : DbOracle
  kmsDescribeOk : Bool
  schemaOk : Bool

/-- The dispatch inside the `try` of `lambda_handler`: route on the
`operation` tag, raising `ValueError` when it is missing/empty or unknown. -/
def runOperation (env : Env) (audit : Nat → Bool) (db : DB) (event : Event) :
    (Except PyExc Response) × DB :=
  match event.operation with
  | none => (.error ⟨"ValueError", "Missing 'operation' in event"⟩, db)
  | some op =>
    if op = "" then (.error ⟨"ValueError", "Missing 'operation' in event"⟩, db)
    else if op = "create_user" then
      handle_create_user_operation env.crypto env.keysE env.dbo audit db event
    else if op = "get_user" then
      handle_get_user_operation env.crypto env.keysE env.dbo audit db event
    else if op = "encrypt" then
      (handle_encrypt_operation env.crypto env.keysE event, db)
    else if op = "decrypt" then
      (handle_decrypt_operation env.crypto env.keysE event, db)
    else if op = "health" then
      (.ok (handle_health_check env.kmsDescribeOk env.keysE env.dbo env.schemaOk), db)
    else if op = "list_users" then
      (handle_list_users_operation env.dbo db event, db)
    else if op = "delete_user" then
      handle_delete_user_operation env.dbo db event
    else if op = "audit_trail" then
      (handle_audit_trail_operation env.dbo db event, db)
    else
      (.error ⟨"ValueError", "Unknown operation: " ++ op⟩, db)

/-- `lambda_handler`: the top-level catch converts every exception escaping
the dispatch into a 500 envelope `{error: str(e), type: type(e).__name__,
success: false}`. -/
def lambda_handler (env : Env) (audit : Nat → Bool) (db : DB) (event : Event) :
    Response × DB :=
  match runOperation env audit db event with
  | (.ok r, db2) => (r, db2)
  | (.error e, db2) => (⟨500, .err e.msg e.ty false⟩, db2)

/-! ## The schema-generated variant (`lambda_function_generated.py`)

A second, divergent implementation shipped in the repository: level 3 uses a
single KMS layer (no application cipher, no key version), `create_user`
writes a metadata record for every mapped field including level-1 ones, and
`get_user` degrades per-field decryption failures to a sentinel instead of
aborting. -/

namespace Gen

/-- Level-3 names of the generated `PIIClassifier` (its level-1 and level-2
lists coincide with the package ones). -/
def level3Fields : List String :=
  ["ssn", "social_security_number", "social_security", "tax_id",
   "bank_account", "account_number", "routing_number",
   "credit_card", "card_number", "cvv", "credit_card_number",
   "passport_number", "drivers_license", "national_id"]

/-- Generated `PIIClassifier.classify_pii_level`. -/
def classify_pii_level (field_name : String) : Nat :=
  let field_lower := PII.pyStrip (PII.pyLower field_name)
  if field_lower ∈ PII.level1Fields then 1
  else if field_lower ∈ PII.level2Fields then 2
  else if field_lower ∈ Gen.level3Fields then 3
  else 1

/-- `EncryptionHandler.FIELD_MAPPING` (input field to database column). -/
def FIELD_MAPPING : List (String × String) :=
  [("email", "email"), ("first_name", "first_name"), ("last_name", "last_name"),
   ("phone", "phone"), ("address", "address_encrypted"),
   ("date_of_birth", "date_of_birth_encrypted"), ("ip_address", "ip_address_encrypted"),
   ("ssn", "ssn_encrypted"), ("bank_account", "bank_account_encrypted"),
   ("credit_card", "credit_card_encrypted")]

/-- The `users` table columns of the generated schema. -/
def users_columns : List String :=
  ["id", "email", "first_name", "last_name", "phone", "address_encrypted",
   "date_of_birth_encrypted", "ip_address_encrypted", "ssn_encrypted",
   "bank_account_encrypted", "credit_card_encrypted", "created_at", "updated_at"]

/-- The dictionary returned by the generated `encrypt_field`. -/
structure EncryptResult where
  db_field : String
  value : Option String
  encrypted : Bool
  level : Nat
  field_name : String
  method : Option String
  kms_key : Option String
deriving Repr, DecidableEq

/-- Generated `EncryptionHandler.encrypt_field`: level 3 is a single KMS
envelope layer (no Fernet, no key version).  It cannot raise in this model
(KMS encryption is total); the final branch folds level 3 with the dead
fallthrough (`classify_pii_level` is total onto {1,2,3}). -/
def encrypt_field (crypto : ExternalCrypto) (field_name : String)
    (value : Option String) : EncryptResult :=
  if value = none ∨ value = some "" then
    ⟨(FIELD_MAPPING.lookup field_name).getD field_name, none, false, 1,
     field_name, none, none⟩
  else
    let v := value.getD ""
    let level := classify_pii_level field_name
    let db_field := (FIELD_MAPPING.lookup field_name).getD field_name
    if level = 1 then
      ⟨db_field, some v, false, 1, field_name, some "rds_only", none⟩
    else if level = 2 then
      ⟨db_field, some (crypto.b64encode (crypto.kmsEncrypt PII.level2_kms_alias v)),
       true, 2, field_name, some "kms_level2", some PII.level2_kms_alias⟩
    else
      ⟨db_field, some (crypto.b64encode (crypto.kmsEncrypt PII.level3_kms_alias v)),
       true, 3, field_name, some "kms_level3", some PII.level3_kms_alias⟩

/-- Generated `EncryptionHandler.decrypt_field`: levels 2 and 3 are both a
single base64-decode + KMS decrypt. -/
def decrypt_field (crypto : ExternalCrypto) (field_name : String)
    (encrypted_value : Option String) (levelArg : Option Nat) :
    Except PyExc (Option String) :=
  if encrypted_value = none ∨ encrypted_value = some "" then
    .ok encrypted_value
  else
    let v := encrypted_value.getD ""
    let level := levelArg.getD (classify_pii_level field_name)
    if level = 1 then
      .ok (some v)
    else if level = 2 ∨ level = 3 then do
      let ciphertext ← match crypto.b64decode v with
        | some c => pure c
        | none => throw PII.b64Err
      let plaintext ← match crypto.kmsDecrypt ciphertext with
        | some p => pure p
        | none => throw PII.kmsErr
      .ok (some plaintext)
    else
      .ok none

/-- A metadata record prepared by the generated `create_user` (one per mapped
input field, regardless of level). -/
structure MetaRec where
  field_name : String
  pii_level : Nat
  kms_key_alias : Option String
  encryption_algorithm : String
deriving Repr, DecidableEq

/-- The field-processing loop of the generated `create_user`: every input
field found in `FIELD_MAPPING` is encrypted and contributes an insert column
and a metadata record; unknown fields are dropped with a warning. -/
def processFields (crypto : ExternalCrypto) :
    List (String × Option String) →
    List (String × Option String) × List MetaRec
  | [] => ([], [])
  | (f, v) :: rest =>
    let (ins, recs) := processFields crypto rest
    if (FIELD_MAPPING.lookup f).isSome then
      let r := encrypt_field crypto f v
      ((r.db_field, r.value) :: ins,
       ⟨f, r.level, r.kms_key, r.method.getD "none"⟩ :: recs)
    else
      (ins, recs)

/-- The `encryption_metadata` row the generated `create_user` inserts for a
record (`app_key_version` is not in its column list, hence NULL). -/
def metaRowOfRec (uid : Nat) (m : MetaRec) : MetaRow :=
  ⟨uid, m.field_name, some m.pii_level, none, m.kms_key_alias,
   some m.encryption_algorithm⟩

/-- The metadata-insert loop of the generated `create_user`. -/
def insertMetaRecs (o : Nat → Bool) (uid : Nat) :
    List MetaRec → Nat → DB → Except PyExc DB
  | [], _, db => .ok db
  | m :: rest, i, db =>
    if o i then
      insertMetaRecs o uid rest (i + 1)
        { db with meta := db.meta ++ [metaRowOfRec uid m] }
    else .error dbErr

/-- Generated `DatabaseOperations.create_user`: encrypt mapped fields, insert
the user row and one metadata row per mapped field (level 1 included), commit
once; rollback (returning the unchanged database) on any failure. -/
def create_user (crypto : ExternalCrypto) (o : DbOracle) (db : DB)
    (user_data : List (String × Option String)) : (Except PyExc Nat) × DB :=
  if ¬ o.connect then (.error connErr, db)
  else
    let (insert_data, recs) := processFields crypto user_data
    let available := insert_data.filter fun p => p.1 ∈ users_columns
    if available.isEmpty then
      (.error ⟨"ValueError", "No valid fields for user creation"⟩, db)
    else if ¬ o.insertUser then (.error dbErr, db)
    else
      let uid := db.next_id
      let work := { db with users := db.users ++ [⟨uid, available⟩],
                            next_id := db.next_id + 1 }
      match insertMetaRecs o.insertMeta uid recs 0 work with
      | .error e => (.error e, db)
      | .ok work2 =>
        if o.commit then (.ok uid, work2) else (.error dbErr, db)

/-- `reverse_mapping` of the generated `get_user` (database column back to
input field). -/
def reverse_mapping : List (String × String) :=
  [("email", "email"), ("first_name", "first_name"), ("last_name", "last_name"),
   ("phone", "phone"), ("address_encrypted", "address"),
   ("date_of_birth_encrypted", "date_of_birth"), ("ip_address_encrypted", "ip_address"),
   ("ssn_encrypted", "ssn"), ("bank_account_encrypted", "bank_account"),
   ("credit_card_encrypted", "credit_card")]

/-- The field loop of the generated `get_user`: a non-NULL value with a
metadata level above 1 is decrypted inside a per-field try whose handler
substitutes the `[DECRYPTION_FAILED]` sentinel; everything else passes
through.  (A NULL `pii_level` would make the Python `level > 1` comparison
raise `TypeError` outside that try.) -/
def getLoop (crypto : ExternalCrypto) (metadata_map : List (String × Option Nat)) :
    List (String × Option String) → Except PyExc (List (String × Option String))
  | [] => .ok []
  | (db_field, value) :: rest => do
    let input_field := (reverse_mapping.lookup db_field).getD db_field
    match value, metadata_map.lookup input_field with
    | some v, some levelVal =>
      match levelVal with
      | none => throw ⟨"TypeError", "not supported between instances of NoneType and int"⟩
      | some level =>
        if level > 1 then
          match decrypt_field crypto input_field (some v) (some level) with
          | .ok d => do
            let out ← getLoop crypto metadata_map rest
            .ok ((input_field, d) :: out)
          | .error _ => do
            let out ← getLoop crypto metadata_map rest
            .ok ((input_field, some "[DECRYPTION_FAILED]") :: out)
        else do
          let out ← getLoop crypto metadata_map rest
          .ok ((input_field, some v) :: out)
    | _, _ => do
      let out ← getLoop crypto metadata_map rest
      .ok ((input_field, value) :: out)

/-- Generated `DatabaseOperations.get_user`: `none` when the user row is
absent (its caller turns that into a 404 envelope); otherwise the decrypted
field map, with per-field failures degraded to the sentinel. -/
def get_user (crypto : ExternalCrypto) (o : DbOracle) (db : DB) (uid : Nat) :
    Except PyExc (Option (Nat × List (String × Option String))) :=
  if ¬ o.connect then .error connErr
  else if ¬ o.selectUser then .error dbErr
  else
    match db.users.find? fun u => u.id = uid with
    | none => .ok none
    | some row =>
      if ¬ o.selectMeta then .error dbErr
      else
        let metadata_map : List (String × Option Nat) :=
          (db.meta.filter fun r => r.user_id = uid).map fun r =>
            (r.field_name, r.pii_level)
        match getLoop crypto metadata_map row.cols with
        | .error e => .error e
        | .ok out => .ok (some (uid, out))

end Gen

/-! ## Concrete instances for witnesses and counterexamples

The abstract external services are instantiated with tag-prefix codings,
which satisfy all the invertibility laws and make everything computable. -/

/-- Prefix a tag character (a concrete injective "encryption"). -/
def tagEncode (t : Char) (s : String) : String := ⟨t :: s.data⟩

/-- Strip a tag character, failing on any other input. -/
def tagDecode (t : Char) (s : String) : Option String :=
  match s.data with
  | [] => none
  | c :: rest => if c = t then some ⟨rest⟩ else none

/-- Concrete crypto model: KMS tags with `K`, base64 with `B`, Fernet with
`F` (key-independent, which satisfies the same-key round-trip law). -/
def concreteCrypto : ExternalCrypto where
  kmsEncrypt := fun _ p => tagEncode 'K' p
  kmsDecrypt := fun c => tagDecode 'K' c
  b64encode := fun s => tagEncode 'B' s
  b64decode := fun s => tagDecode 'B' s
  fernetEncrypt := fun _ p => tagEncode 'F' p
  fernetDecrypt := fun _ c => tagDecode 'F' c
  kms_roundtrip := by intro _ p; cases p; simp [tagEncode, tagDecode]
  b64_roundtrip := by intro s; cases s; simp [tagEncode, tagDecode]
  fernet_roundtrip := by intro _ p; cases p; simp [tagEncode, tagDecode]
  kms_ne_empty := by intro _ p; cases p; simp [tagEncode, String.ext_iff]
  b64_ne_empty := by intro s _; cases s; simp [tagEncode, String.ext_iff]

/-- Concrete app-keys secret: current version 2, keys for versions 1 and 2. -/
def appKeys0 : AppKeys where
  current_version := 2
  key := fun v => if v = 1 then some "fernet-key-v1"
    else if v = 2 then some "fernet-key-v2" else none

/-- An all-success database oracle. -/
def oracleOK : DbOracle :=
  ⟨true, true, fun _ => true, true, true, true, true, true, true⟩

/-- Concrete environment for closed evaluations. -/
def env0 : Env := ⟨concreteCrypto, .ok appKeys0, oracleOK, true, true⟩

/-- The empty database. -/
def emptyDB : DB := ⟨[], [], [], 0⟩

/-- An event with no keys set. -/
def emptyEvent : Event := ⟨none, none, none, [], none, none, none⟩

/-! ## Spec-side compositions (for the refinement claims)

These two definitions follow the specification's words for the level-3
protocol — `encrypt(v) = envelope_encrypt(local_encrypt(v, current_key),
alias=level3_alias)` and `decrypt(c) = local_decrypt(envelope_decrypt(
base64_decode(c)), key_for_version(metadata.key_version))` — to be compared
with the embedded `encrypt_field`/`decrypt_field`. -/

/-- Spec-side level-3 encryption: local (Fernet) layer first, envelope (KMS)
layer second and outermost, base64 for transport. -/
def spec_level3_encrypt (crypto : ExternalCrypto) (key v : String) : String :=
  crypto.b64encode (crypto.kmsEncrypt level3_kms_alias (crypto.fernetEncrypt key v))

/-- Spec-side level-3 decryption: base64-decode, envelope-decrypt, then
local-decrypt with the key for the given version. -/
def spec_level3_decrypt (crypto : ExternalCrypto) (keysE : Except PyExc AppKeys)
    (version : Nat) (c : String) : Except PyExc (Option String) := do
  let ciphertext ← match crypto.b64decode c with
    | some x => pure x
    | none => throw b64Err
  let inner ← match crypto.kmsDecrypt ciphertext with
    | some x => pure x
    | none => throw kmsErr
  let key ← get_app_cipher_for_version keysE version
  let plaintext ← match crypto.fernetDecrypt key inner with
    | some x => pure x
    | none => throw fernetErr
  .ok (some plaintext)

/-! ## Derived state descriptions used in theorem statements -/

/-- The effective level `decrypt_field` works with: `metadata['level']` when
present, else the fresh classification of the field name. -/
def resolvedLevel (name : String) (metadata : Option FieldMeta) : Nat :=
  match metadata with
  | some m => match m.level with
    | some l => l
    | none => classify_pii_level name
  | none => classify_pii_level name

/-- The key version `decrypt_field` selects at level 3:
`metadata.get('app_key_version', 1) if metadata else 1`. -/
def metaVersion (metadata : Option FieldMeta) : Nat :=
  match metadata with
  | some m => m.app_key_version.getD 1
  | none => 1

/-- The database state a fully successful `store_encrypted_user` commits:
the one new user row (allowlisted columns only) and one metadata row per
metadata entry, written on top of the unchanged prior state. -/
def createdState (db : DB) (enc : EncryptedPayload) : DB :=
  { users := db.users ++ [⟨db.next_id, insertCols enc.fields⟩]
    meta := db.meta ++ enc.metadata.map fun fm => metaRowOf db.next_id fm.1 fm.2
    audit := db.audit
    next_id := db.next_id + 1 }

/-- The input fields of a create that receive a metadata entry: value
present and non-empty, classified level at least 2. -/
def metaKeys (data : List (String × Option String)) : List String :=
  data.filterMap fun fv =>
    match fv.2 with
    | some v => if v ≠ "" ∧ 2 ≤ classify_pii_level fv.1 then some fv.1 else none
    | none => none

/-! ## Concrete database fixtures -/

/-- A database holding one user with a plaintext email and an undecryptable
level-3 `ssn_encrypted` value (`"junk"` carries no valid base64 tag). -/
def db3 : DB :=
  ⟨[⟨0, [("email", some "a@b.com"), ("ssn_encrypted", some "junk")]⟩],
   [⟨0, "ssn", some 3, some 1, some "alias/pii-level3", none⟩], [], 1⟩

/-- A `get_user` event for the user of `db3`. -/
def event3 : Event := ⟨some "get_user", none, none, [], some 0, none, none⟩

/-! # Theorems -/

/-! ## Shape lemmas for `encrypt_field` and `decrypt_field` -/

theorem encrypt_field_level2_eq (crypto : ExternalCrypto) (keysE : Except PyExc AppKeys)
    (name v : String) (h2 : classify_pii_level name = 2) (hv : v ≠ "") :
    encrypt_field crypto keysE name (some v) =
      .ok ⟨some (crypto.b64encode (crypto.kmsEncrypt level2_kms_alias v)), true, 2,
           name, some "kms_only", none, some level2_kms_alias⟩ := by
  unfold encrypt_field get_encryption_requirements
  simp [hv, h2]

theorem encrypt_field_level3_eq (crypto : ExternalCrypto) (keys : AppKeys) (k : String)
    (name v : String) (h3 : classify_pii_level name = 3) (hv : v ≠ "")
    (hkey : keys.key keys.current_version = some k) :
    encrypt_field crypto (.ok keys) name (some v) =
      .ok ⟨some (spec_level3_encrypt crypto k v), true, 3, name,
           some "double_encryption", some keys.current_version, some level3_kms_alias⟩ := by
  unfold encrypt_field get_encryption_requirements get_current_app_cipher spec_level3_encrypt
  simp only [bind, Except.bind, pure, Except.pure, hv, h3, hkey]
  simp [hv, h3, hkey]

theorem encrypt_field_level3_inv (crypto : ExternalCrypto) (keysE : Except PyExc AppKeys)
    (name v : String) (r : EncryptResult) (h3 : classify_pii_level name = 3)
    (hv : v ≠ "") (henc : encrypt_field crypto keysE name (some v) = .ok r) :
    ∃ keys k, keysE = .ok keys ∧ keys.key keys.current_version = some k ∧
      r = ⟨some (spec_level3_encrypt crypto k v), true, 3, name,
           some "double_encryption", some keys.current_version, some level3_kms_alias⟩ := by
  cases keysE with
  | error e =>
    exfalso
    unfold encrypt_field get_encryption_requirements get_current_app_cipher at henc
    simp only [bind, Except.bind, pure, Except.pure, hv, h3] at henc
    simp [hv, h3] at henc
  | ok keys =>
    cases hkey : keys.key keys.current_version with
    | none =>
      exfalso
      unfold encrypt_field get_encryption_requirements get_current_app_cipher at henc
      simp only [bind, Except.bind, pure, Except.pure, hv, h3, hkey] at henc
      simp [hv, h3, hkey] at henc
    | some k =>
      refine ⟨keys, k, rfl, hkey, ?_⟩
      have heq := encrypt_field_level3_eq crypto keys k name v h3 hv hkey
      rw [henc] at heq
      exact Except.ok.inj heq

theorem decrypt_field_level2_roundtrip (crypto : ExternalCrypto)
    (keysE : Except PyExc AppKeys) (name v : String) (m : FieldMeta)
    (hml : m.level = some 2) :
    decrypt_field crypto keysE name
        (some (crypto.b64encode (crypto.kmsEncrypt level2_kms_alias v))) (some m) =
      .ok (some v) := by
  have hne : crypto.b64encode (crypto.kmsEncrypt level2_kms_alias v) ≠ "" :=
    crypto.b64_ne_empty _ (crypto.kms_ne_empty _ _)
  unfold decrypt_field
  simp [hne, hml, crypto.b64_roundtrip, crypto.kms_roundtrip]

theorem get_encryption_requirements_level (name : String) :
    (get_encryption_requirements name).level = classify_pii_level name := rfl

theorem decrypt_field_level3_general (crypto : ExternalCrypto)
    (keysE : Except PyExc AppKeys) (name c : String) (metadata : Option FieldMeta)
    (hl : resolvedLevel name metadata = 3) (hc : c ≠ "") :
    decrypt_field crypto keysE name (some c) metadata =
      spec_level3_decrypt crypto keysE (metaVersion metadata) c := by
  cases metadata with
  | none =>
    have hcls : classify_pii_level name = 3 := by simpa [resolvedLevel] using hl
    unfold decrypt_field spec_level3_decrypt
    simp only [bind, Except.bind, pure, Except.pure, hc, metaVersion,
      get_encryption_requirements_level, hcls]
    simp only [reduceIte]
    cases hb : crypto.b64decode c with
    | none => simp [hc, hb]
    | some ct =>
      cases hk : crypto.kmsDecrypt ct with
      | none => simp [hc, hb, hk]
      | some inner =>
        cases hkey : get_app_cipher_for_version keysE 1 with
        | error e => simp [hc, hb, hk]
        | ok key =>
          cases hf : crypto.fernetDecrypt key inner with
          | none => simp [hc, hb, hk, hf]
          | some p => simp [hc, hb, hk, hf]
  | some m =>
    cases hml : m.level with
    | none =>
      have hcls : classify_pii_level name = 3 := by
        simpa [resolvedLevel, hml] using hl
      unfold decrypt_field spec_level3_decrypt
      simp only [bind, Except.bind, pure, Except.pure, hc, metaVersion, hml,
        get_encryption_requirements_level, hcls]
      simp only [reduceIte]
      cases hb : crypto.b64decode c with
      | none => simp [hc, hb]
      | some ct =>
        cases hk : crypto.kmsDecrypt ct with
        | none => simp [hc, hb, hk]
        | some inner =>
          cases hkey : get_app_cipher_for_version keysE (m.app_key_version.getD 1) with
          | error e => simp [hc, hb, hk]
          | ok key =>
            cases hf : crypto.fernetDecrypt key inner with
            | none => simp [hc, hb, hk, hf]
            | some p => simp [hc, hb, hk, hf]
    | some l =>
      have hl3 : l = 3 := by simpa [resolvedLevel, hml] using hl
      subst hl3
      unfold decrypt_field spec_level3_decrypt
      simp only [bind, Except.bind, pure, Except.pure, hc, metaVersion, hml,
        get_encryption_requirements_level]
      simp only [Option.getD_some, reduceIte]
      cases hb : crypto.b64decode c with
      | none => simp [hc, hb]
      | some ct =>
        cases hk : crypto.kmsDecrypt ct with
        | none => simp [hc, hb, hk]
        | some inner =>
          cases hkey : get_app_cipher_for_version keysE (m.app_key_version.getD 1) with
          | error e => simp [hc, hb, hk]
          | ok key =>
            cases hf : crypto.fernetDecrypt key inner with
            | none => simp [hc, hb, hk, hf]
            | some p => simp [hc, hb, hk, hf]

/-! ## C1: level-2/3 encrypt/decrypt round trip -/

/-- C1: for every level-2 or level-3 field name and non-empty plaintext `v`,
decrypting the value produced by `encrypt_field` with the metadata produced
by that same encryption returns `v` (envelope encryption, the Fernet cipher
and base64 modelled as invertible pairs). -/
theorem c1_encrypt_decrypt_roundtrip (crypto : ExternalCrypto)
    (keysE : Except PyExc AppKeys) (name v : String) (r : EncryptResult)
    (hcls : classify_pii_level name = 2 ∨ classify_pii_level name = 3)
    (hv : v ≠ "")
    (henc : encrypt_field crypto keysE name (some v) = .ok r) :
    decrypt_field crypto keysE name r.value (some (metaOfResult r)) = .ok (some v) := by
  rcases hcls with h2 | h3
  · have heq := encrypt_field_level2_eq crypto keysE name v h2 hv
    rw [henc] at heq
    have hr := (Except.ok.inj heq).symm
    subst hr
    exact decrypt_field_level2_roundtrip crypto keysE name v _ rfl
  · obtain ⟨keys, k, hkE, hkey, hr⟩ :=
      encrypt_field_level3_inv crypto keysE name v r h3 hv henc
    subst hr
    subst hkE
    have hne : spec_level3_encrypt crypto k v ≠ "" :=
      crypto.b64_ne_empty _ (crypto.kms_ne_empty _ _)
    have hgen := decrypt_field_level3_general crypto (.ok keys) name
      (spec_level3_encrypt crypto k v)
      (some (metaOfResult ⟨some (spec_level3_encrypt crypto k v), true, 3, name,
        some "double_encryption", some keys.current_version, some level3_kms_alias⟩))
      (by simp [metaOfResult, resolvedLevel]) hne
    simp only [metaOfResult] at hgen ⊢
    rw [hgen]
    unfold spec_level3_decrypt spec_level3_encrypt get_app_cipher_for_version metaVersion
    simp only [bind, Except.bind, pure, Except.pure]
    simp [crypto.b64_roundtrip, crypto.kms_roundtrip, crypto.fernet_roundtrip, hkey]

/-- Witness for C1 at the level-3 field `ssn` with plaintext `123-45-6789`
under the concrete crypto model (the encrypted value is the tagged string
`BKF123-45-6789`, produced under key version 2). -/
theorem c1_witness :
    (classify_pii_level "ssn" = 2 ∨ classify_pii_level "ssn" = 3) ∧
    decrypt_field concreteCrypto (.ok appKeys0) "ssn" (some "BKF123-45-6789")
      (some (metaOfResult ⟨some "BKF123-45-6789", true, 3, "ssn",
        some "double_encryption", some 2, some "alias/pii-level3"⟩)) =
      .ok (some "123-45-6789") :=
  ⟨Or.inr (by decide),
   c1_encrypt_decrypt_roundtrip concreteCrypto (.ok appKeys0) "ssn" "123-45-6789"
     ⟨some "BKF123-45-6789", true, 3, "ssn", some "double_encryption", some 2,
      some "alias/pii-level3"⟩
     (Or.inr (by decide)) (by decide) (by decide)⟩


/-! ## C2: level-3 double-encryption protocol (package lambda) -/

/-- C2 (amended to the package lambda): level-3 `encrypt_field` applies the
Fernet cipher under the current key first and the KMS envelope second
(outermost), base64-encodes the result, and records the key version used in
the returned metadata; `decrypt_field` applies KMS to the base64-decoded
ciphertext first and then Fernet using the key for the version recorded in
the metadata.  (The generated variant does neither — see the
counterexample.) -/
theorem c2_level3_protocol :
    (∀ (crypto : ExternalCrypto) (keys : AppKeys) (k name v : String),
      classify_pii_level name = 3 → v ≠ "" →
      keys.key keys.current_version = some k →
      encrypt_field crypto (.ok keys) name (some v) =
        .ok ⟨some (spec_level3_encrypt crypto k v), true, 3, name,
             some "double_encryption", some keys.current_version,
             some level3_kms_alias⟩) ∧
    (∀ (crypto : ExternalCrypto) (keysE : Except PyExc AppKeys)
       (name c : String) (m : FieldMeta) (ver : Nat),
      m.level = some 3 → m.app_key_version = some ver → c ≠ "" →
      decrypt_field crypto keysE name (some c) (some m) =
        spec_level3_decrypt crypto keysE ver c) := by
  constructor
  · intro crypto keys k name v h3 hv hkey
    exact encrypt_field_level3_eq crypto keys k name v h3 hv hkey
  · intro crypto keysE name c m ver hml hver hc
    have h := decrypt_field_level3_general crypto keysE name c (some m)
      (by simp [resolvedLevel, hml]) hc
    simpa [metaVersion, hver] using h

/-- Witness for C2 with the `ssn` field, plaintext `123`, current key
version 2 of the concrete key store. -/
theorem c2_witness :
    (classify_pii_level "ssn" = 3 ∧
      encrypt_field concreteCrypto (.ok appKeys0) "ssn" (some "123") =
        .ok ⟨some (spec_level3_encrypt concreteCrypto "fernet-key-v2" "123"),
             true, 3, "ssn", some "double_encryption", some 2,
             some level3_kms_alias⟩) ∧
    decrypt_field concreteCrypto (.ok appKeys0) "ssn" (some "BKF123")
        (some ⟨some 3, some 2, some "alias/pii-level3", none⟩) =
      spec_level3_decrypt concreteCrypto (.ok appKeys0) 2 "BKF123" :=
  ⟨⟨by decide,
    c2_level3_protocol.1 concreteCrypto appKeys0 "fernet-key-v2" "ssn" "123"
      (by decide) (by decide) (by decide)⟩,
   c2_level3_protocol.2 concreteCrypto (.ok appKeys0) "ssn" "BKF123"
     ⟨some 3, some 2, some "alias/pii-level3", none⟩ 2 rfl rfl (by decide)⟩

/-- Counterexample to C2 as stated over the whole repository: the generated
variant encrypts the level-3 field `ssn` with a single KMS layer applied
directly to the plaintext (value `BK123`, method `kms_level3`), records no
key version in the stored metadata row, and its ciphertext is not
spec-level-3 decryptable (the Fernet layer is absent). -/
theorem c2_counterexample :
    Gen.encrypt_field concreteCrypto "ssn" (some "123") =
      ⟨"ssn_encrypted", some "BK123", true, 3, "ssn", some "kms_level3",
       some "alias/pii-level3"⟩ ∧
    (Gen.create_user concreteCrypto oracleOK emptyDB [("ssn", some "123")]).2.meta =
      [⟨0, "ssn", some 3, none, some "alias/pii-level3", some "kms_level3"⟩] ∧
    spec_level3_decrypt concreteCrypto (.ok appKeys0) 2 "BK123" =
      .error fernetErr := by
  refine ⟨by decide, by decide, by decide⟩

/-! ## C5: empty-value short circuit -/

/-- C5: `encrypt_field` on `None` or the empty string returns
`{value: None, encrypted: false, level: 1}` for every field name, without
invoking any encryption service (the result is the same constant for every
crypto model and key store). -/
theorem c5_empty_short_circuit (crypto : ExternalCrypto)
    (keysE : Except PyExc AppKeys) (name : String) (value : Option String)
    (h : value = none ∨ value = some "") :
    encrypt_field crypto keysE name value =
      .ok ⟨none, false, 1, name, none, none, none⟩ := by
  unfold encrypt_field
  rw [if_pos h]

/-- Witness for C5 at the level-3 name `ssn`, for both `None` and `""`. -/
theorem c5_witness :
    encrypt_field concreteCrypto (.ok appKeys0) "ssn" none =
      .ok ⟨none, false, 1, "ssn", none, none, none⟩ ∧
    encrypt_field concreteCrypto (.ok appKeys0) "ssn" (some "") =
      .ok ⟨none, false, 1, "ssn", none, none, none⟩ :=
  ⟨c5_empty_short_circuit concreteCrypto (.ok appKeys0) "ssn" none (Or.inl rfl),
   c5_empty_short_circuit concreteCrypto (.ok appKeys0) "ssn" (some "") (Or.inr rfl)⟩

/-! ## C9: missing `app_key_version` defaults to 1 -/

/-- C9: level-3 `decrypt_field` with absent metadata, or metadata lacking an
`app_key_version` entry, does not fail on the missing version: it proceeds
with the full level-3 decryption using key version 1. -/
theorem c9_default_key_version (crypto : ExternalCrypto)
    (keysE : Except PyExc AppKeys) (name c : String)
    (h3 : classify_pii_level name = 3) (hc : c ≠ "") :
    (decrypt_field crypto keysE name (some c) none =
      spec_level3_decrypt crypto keysE 1 c) ∧
    (∀ m : FieldMeta, m.app_key_version = none →
      (m.level = some 3 ∨ m.level = none) →
      decrypt_field crypto keysE name (some c) (some m) =
        spec_level3_decrypt crypto keysE 1 c) := by
  constructor
  · have h := decrypt_field_level3_general crypto keysE name c none
      (by simp [resolvedLevel, h3]) hc
    simpa [metaVersion] using h
  · intro m hver hml
    have hres : resolvedLevel name (some m) = 3 := by
      rcases hml with h | h <;> simp [resolvedLevel, h, h3]
    have hgen := decrypt_field_level3_general crypto keysE name c (some m) hres hc
    simpa [metaVersion, hver] using hgen

/-- Witness for C9: the level-3 ciphertext `BKF123` (encrypted under
version 1) decrypts with no metadata at all, via the defaulted version 1. -/
theorem c9_witness :
    classify_pii_level "ssn" = 3 ∧
    decrypt_field concreteCrypto (.ok appKeys0) "ssn" (some "BKF123") none =
      spec_level3_decrypt concreteCrypto (.ok appKeys0) 1 "BKF123" ∧
    spec_level3_decrypt concreteCrypto (.ok appKeys0) 1 "BKF123" = .ok (some "123") :=
  ⟨by decide,
   (c9_default_key_version concreteCrypto (.ok appKeys0) "ssn" "BKF123"
     (by decide) (by decide)).1,
   by decide⟩

/-! ## C7: unknown operations and the top-level catch -/

/-- C7 (amended): an unknown operation raises `ValueError`, which the
top-level catch converts into a 500 server-error envelope (not a 4xx
client-error envelope) whose body carries the type name `ValueError` and the
message; and every exception escaping the dispatch is converted into a 500
envelope carrying the exception's type name and message with
`success = false`. -/
theorem c7_unknown_op_and_catch :
    (∀ (env : Env) (audit : Nat → Bool) (db : DB) (event : Event) (op : String),
      event.operation = some op → op ≠ "" →
      op ∉ (["create_user", "get_user", "encrypt", "decrypt", "health",
             "list_users", "delete_user", "audit_trail"] : List String) →
      lambda_handler env audit db event =
        (⟨500, .err ("Unknown operation: " ++ op) "ValueError" false⟩, db)) ∧
    (∀ (env : Env) (audit : Nat → Bool) (db db2 : DB) (event : Event) (e : PyExc),
      runOperation env audit db event = (.error e, db2) →
      lambda_handler env audit db event = (⟨500, .err e.msg e.ty false⟩, db2)) := by
  constructor
  · intro env audit db event op hop hne hni
    simp only [List.mem_cons, List.mem_singleton, not_or] at hni
    obtain ⟨h1, h2, h3, h4, h5, h6, h7, h8⟩ := hni
    unfold lambda_handler runOperation
    simp [hop, hne, h1, h2, h3, h4, h5, h6, h7, h8]
  · intro env audit db db2 event e hrun
    unfold lambda_handler
    rw [hrun]

/-- Witness for C7 (amended): the unknown operation `frobnicate` against the
concrete environment. -/
theorem c7_witness :
    lambda_handler env0 (fun _ => true) emptyDB
        ⟨some "frobnicate", none, none, [], none, none, none⟩ =
      (⟨500, .err ("Unknown operation: " ++ "frobnicate") "ValueError" false⟩,
       emptyDB) :=
  c7_unknown_op_and_catch.1 env0 (fun _ => true) emptyDB
    ⟨some "frobnicate", none, none, [], none, none, none⟩ "frobnicate"
    rfl (by decide) (by decide)

/-- Counterexample to C7 as stated: the response for an unknown operation has
status code 500, which is a server error, not a 4xx client error. -/
theorem c7_counterexample :
    (lambda_handler env0 (fun _ => true) emptyDB
        ⟨some "frobnicate", none, none, [], none, none, none⟩).1.statusCode = 500 ∧
    ¬ ((lambda_handler env0 (fun _ => true) emptyDB
        ⟨some "frobnicate", none, none, [], none, none, none⟩).1.statusCode / 100 = 4) := by
  refine ⟨by decide, by decide⟩


/-! ## Transaction lemmas for `store_encrypted_user` -/

theorem insertMetaRows_base_commits (o : Nat → Bool) (uid : Nat) :
    ∀ (rows : List (String × FieldMeta)) (i : Nat) (c : Conn),
      (insertMetaRows o uid rows i c).2.base = c.base ∧
      (insertMetaRows o uid rows i c).2.commits = c.commits := by
  intro rows
  induction rows with
  | nil => intro i c; exact ⟨rfl, rfl⟩
  | cons fm rest ih =>
    intro i c
    obtain ⟨f, m⟩ := fm
    unfold insertMetaRows
    by_cases h : o i
    · simp only [h, if_true]
      exact ih (i + 1) _
    · simp [h]

theorem insertMetaRows_ok_work (o : Nat → Bool) (uid : Nat) :
    ∀ (rows : List (String × FieldMeta)) (i : Nat) (c c2 : Conn),
      insertMetaRows o uid rows i c = (.ok (), c2) →
      c2.work = { c.work with
        meta := c.work.meta ++ rows.map fun fm => metaRowOf uid fm.1 fm.2 } := by
  intro rows
  induction rows with
  | nil =>
    intro i c c2 h
    unfold insertMetaRows at h
    have hc : c2 = c := by
      have h2 := congrArg Prod.snd h
      simpa using h2.symm
    rw [hc]
    obtain ⟨base, work, commits⟩ := c
    obtain ⟨wu, wm, wa, wn⟩ := work
    simp
  | cons fm rest ih =>
    intro i c c2 h
    obtain ⟨f, m⟩ := fm
    unfold insertMetaRows at h
    by_cases hoi : o i
    · simp only [hoi, if_true] at h
      have hw := ih (i + 1) _ c2 h
      rw [hw]
      simp [Conn.exec]
    · simp only [hoi, if_false] at h
      exact absurd (congrArg Prod.fst h) (by simp)

theorem store_ok_state (o : DbOracle) (db : DB) (enc : EncryptedPayload) :
    ∀ uid c, store_encrypted_user o db enc = (.ok uid, c) →
      uid = db.next_id ∧ c = ⟨createdState db enc, createdState db enc, 1⟩ := by
  intro uid c h
  unfold store_encrypted_user at h
  by_cases hconn : o.connect
  · simp only [hconn, not_true_eq_false, if_false, reduceIte] at h
    by_cases hcols : (insertCols enc.fields).isEmpty
    · simp [hcols] at h
    · simp only [hcols, if_false, reduceIte] at h
      by_cases hins : o.insertUser
      · simp only [hins, not_true_eq_false, if_false, reduceIte] at h
        rcases hmr : insertMetaRows o.insertMeta
            (Conn.open db).work.next_id enc.metadata 0
            ((Conn.open db).exec fun db2 =>
              { db2 with users := db2.users ++ [⟨(Conn.open db).work.next_id,
                  insertCols enc.fields⟩], next_id := db2.next_id + 1 })
            with ⟨res, cm⟩
        rw [hmr] at h
        cases res with
        | error e => simp at h
        | ok u =>
          cases u
          by_cases hcommit : o.commit
          · simp only [hcommit, if_true, reduceIte] at h
            obtain ⟨hu, hc⟩ := Prod.mk.injEq .. ▸ h
            have hbc := insertMetaRows_base_commits o.insertMeta
              (Conn.open db).work.next_id enc.metadata 0
              ((Conn.open db).exec fun db2 =>
                { db2 with users := db2.users ++ [⟨(Conn.open db).work.next_id,
                    insertCols enc.fields⟩], next_id := db2.next_id + 1 })
            rw [hmr] at hbc
            have hwork := insertMetaRows_ok_work o.insertMeta
              (Conn.open db).work.next_id enc.metadata 0 _ cm hmr
            have hcmw : cm.work = createdState db enc := by
              rw [hwork]
              simp [Conn.open, Conn.exec, createdState]
            have huid : uid = db.next_id := by
              have h2 := Except.ok.inj hu
              simpa [Conn.open] using h2.symm
            refine ⟨huid, ?_⟩
            rw [← hc]
            unfold Conn.commit
            rw [hcmw]
            have : cm.commits = 0 := by simpa [Conn.open, Conn.exec] using hbc.2
            rw [this]
          · simp [hcommit] at h
      · simp [hins] at h
  · simp [hconn] at h

theorem store_error_state (o : DbOracle) (db : DB) (enc : EncryptedPayload) :
    ∀ e c, store_encrypted_user o db enc = (.error e, c) →
      c.base = db ∧ c.commits = 0 := by
  intro e c h
  unfold store_encrypted_user at h
  by_cases hconn : o.connect
  · simp only [hconn, not_true_eq_false, if_false, reduceIte] at h
    by_cases hcols : (insertCols enc.fields).isEmpty
    · simp only [hcols, if_true, reduceIte] at h
      obtain ⟨he, hc⟩ := Prod.mk.injEq .. ▸ h
      rw [← hc]
      exact ⟨rfl, rfl⟩
    · simp only [hcols, if_false, reduceIte] at h
      by_cases hins : o.insertUser
      · simp only [hins, not_true_eq_false, if_false, reduceIte] at h
        rcases hmr : insertMetaRows o.insertMeta
            (Conn.open db).work.next_id enc.metadata 0
            ((Conn.open db).exec fun db2 =>
              { db2 with users := db2.users ++ [⟨(Conn.open db).work.next_id,
                  insertCols enc.fields⟩], next_id := db2.next_id + 1 })
            with ⟨res, cm⟩
        rw [hmr] at h
        have hbc := insertMetaRows_base_commits o.insertMeta
          (Conn.open db).work.next_id enc.metadata 0
          ((Conn.open db).exec fun db2 =>
            { db2 with users := db2.users ++ [⟨(Conn.open db).work.next_id,
                insertCols enc.fields⟩], next_id := db2.next_id + 1 })
        rw [hmr] at hbc
        have hbase : cm.base = db := by simpa [Conn.open, Conn.exec] using hbc.1
        have hcom : cm.commits = 0 := by simpa [Conn.open, Conn.exec] using hbc.2
        cases res with
        | error e2 =>
          simp only [] at h
          obtain ⟨he, hc⟩ := Prod.mk.injEq .. ▸ h
          rw [← hc]
          unfold Conn.rollback
          exact ⟨hbase, hcom⟩
        | ok u =>
          cases u
          by_cases hcommit : o.commit
          · simp [hcommit] at h
          · simp only [hcommit, if_false, reduceIte] at h
            obtain ⟨he, hc⟩ := Prod.mk.injEq .. ▸ h
            rw [← hc]
            unfold Conn.rollback
            exact ⟨hbase, hcom⟩
      · simp only [hins, not_false_eq_true, if_true, reduceIte] at h
        obtain ⟨he, hc⟩ := Prod.mk.injEq .. ▸ h
        rw [← hc]
        unfold Conn.rollback
        exact ⟨rfl, rfl⟩
  · simp only [hconn, not_false_eq_true, if_true, reduceIte] at h
    obtain ⟨he, hc⟩ := Prod.mk.injEq .. ▸ h
    rw [← hc]
    exact ⟨rfl, rfl⟩

/-! ## C6: the create transaction is atomic -/

/-- C6: `store_encrypted_user` either succeeds — committing exactly once,
with the committed state holding the new user row and all metadata rows on
top of the unchanged prior state — or fails with the committed state exactly
the prior state and no commit at all (full rollback, no partial user, no
orphan metadata). -/
theorem c6_atomic_create (o : DbOracle) (db : DB) (enc : EncryptedPayload) :
    (∀ uid, (store_encrypted_user o db enc).1 = .ok uid →
      uid = db.next_id ∧
      (store_encrypted_user o db enc).2.commits = 1 ∧
      (store_encrypted_user o db enc).2.base = createdState db enc) ∧
    (∀ e, (store_encrypted_user o db enc).1 = .error e →
      (store_encrypted_user o db enc).2.base = db ∧
      (store_encrypted_user o db enc).2.commits = 0) := by
  constructor
  · intro uid h
    rcases hs : store_encrypted_user o db enc with ⟨res, c⟩
    rw [hs] at h
    simp only [] at h
    subst h
    obtain ⟨huid, hc⟩ := store_ok_state o db enc uid c hs
    subst hc
    exact ⟨huid, rfl, rfl⟩
  · intro e h
    rcases hs : store_encrypted_user o db enc with ⟨res, c⟩
    rw [hs] at h
    simp only [] at h
    subst h
    obtain ⟨hbase, hcom⟩ := store_error_state o db enc e c hs
    exact ⟨hbase, hcom⟩

/-- Witness for C6: a successful create (one allowlisted field, one metadata
entry) commits exactly once and writes both rows; a create whose commit step
fails leaves the empty database unchanged with zero commits. -/
theorem c6_witness :
    ((store_encrypted_user oracleOK emptyDB
        ⟨[("email", some "a@b.com")],
         [("ssn", ⟨some 3, some 2, some "alias/pii-level3", none⟩)]⟩).2.commits = 1 ∧
     (store_encrypted_user oracleOK emptyDB
        ⟨[("email", some "a@b.com")],
         [("ssn", ⟨some 3, some 2, some "alias/pii-level3", none⟩)]⟩).2.base =
       createdState emptyDB
        ⟨[("email", some "a@b.com")],
         [("ssn", ⟨some 3, some 2, some "alias/pii-level3", none⟩)]⟩) ∧
    ((store_encrypted_user ⟨true, true, fun _ => true, false, true, true, true, true, true⟩
        emptyDB ⟨[("email", some "a@b.com")], []⟩).2.base = emptyDB ∧
     (store_encrypted_user ⟨true, true, fun _ => true, false, true, true, true, true, true⟩
        emptyDB ⟨[("email", some "a@b.com")], []⟩).2.commits = 0) :=
  ⟨((c6_atomic_create oracleOK emptyDB
      ⟨[("email", some "a@b.com")],
       [("ssn", ⟨some 3, some 2, some "alias/pii-level3", none⟩)]⟩).1 0 (by decide)).2,
   (c6_atomic_create ⟨true, true, fun _ => true, false, true, true, true, true, true⟩
      emptyDB ⟨[("email", some "a@b.com")], []⟩).2 dbErr (by decide)⟩

/-! ## C10: static field allowlist in `store_encrypted_user` -/

theorem lookup_mem_map_snd {α β : Type} [BEq α] :
    ∀ (l : List (α × β)) (a : α) (b : β), l.lookup a = some b → b ∈ l.map Prod.snd := by
  intro l
  induction l with
  | nil => intro a b h; simp [List.lookup] at h
  | cons p rest ih =>
    intro a b h
    obtain ⟨k, v⟩ := p
    unfold List.lookup at h
    by_cases hab : a == k
    · simp only [hab] at h
      simp only [Option.some.injEq] at h
      subst h
      simp
    · simp only [Bool.not_eq_true] at hab
      simp only [hab] at h
      simpa using Or.inr (ih a b h)

theorem insertCols_unmapped_drop (f : String) (v : Option String)
    (rest : List (String × Option String))
    (h : field_mapping.lookup f = none) :
    insertCols ((f, v) :: rest) = insertCols rest := by
  unfold insertCols
  simp [List.filterMap_cons, h]

theorem insertCols_nil_of_unmapped :
    ∀ (fields : List (String × Option String)),
      (∀ fv ∈ fields, field_mapping.lookup fv.1 = none ∨ fv.2 = none) →
      insertCols fields = [] := by
  intro fields
  induction fields with
  | nil => intro _; rfl
  | cons fv rest ih =>
    intro h
    obtain ⟨f, v⟩ := fv
    have hfv := h (f, v) (by simp)
    have hrest := ih fun q hq => h q (by simp [hq])
    unfold insertCols at hrest ⊢
    rcases hfv with hm | hv
    · simp [List.filterMap_cons, hm, hrest]
    · simp only [] at hv
      subst hv
      simp only [List.filterMap_cons]
      rcases hl : field_mapping.lookup f with _ | col
      · simpa [hl] using hrest
      · simpa [hl] using hrest

/-- C10: `store_encrypted_user` persists only columns derived from the fixed
static `field_mapping` allowlist — (1) every inserted column comes from an
allowlisted input field, (2) a field whose name is not in the allowlist is
silently dropped regardless of its classified level, (3) when no input field
is allowlisted (or all values are NULL) the create raises `ValueError`
instead of creating an empty user, leaving the database unchanged, and
(4) on success the new user row holds exactly the allowlisted columns. -/
theorem c10_static_allowlist :
    (∀ (fields : List (String × Option String)) (p : String × Option String),
      p ∈ insertCols fields →
      p.1 ∈ field_mapping.map Prod.snd ∧
      ∃ q ∈ fields, field_mapping.lookup q.1 = some p.1 ∧ q.2 = p.2) ∧
    (∀ (f : String) (v : Option String) (rest : List (String × Option String)),
      field_mapping.lookup f = none →
      insertCols ((f, v) :: rest) = insertCols rest) ∧
    (∀ (o : DbOracle) (db : DB) (enc : EncryptedPayload),
      o.connect = true →
      (∀ fv ∈ enc.fields, field_mapping.lookup fv.1 = none ∨ fv.2 = none) →
      (store_encrypted_user o db enc).1 =
        .error ⟨"ValueError", "No valid fields to insert"⟩ ∧
      (store_encrypted_user o db enc).2.base = db) ∧
    (∀ (o : DbOracle) (db : DB) (enc : EncryptedPayload) (uid : Nat) (c : Conn),
      store_encrypted_user o db enc = (.ok uid, c) →
      c.base.users = db.users ++ [⟨db.next_id, insertCols enc.fields⟩]) := by
  refine ⟨?_, ?_, ?_, ?_⟩
  · intro fields p hp
    unfold insertCols at hp
    rw [List.mem_filterMap] at hp
    obtain ⟨q, hq, hfq⟩ := hp
    rcases hl : field_mapping.lookup q.1 with _ | col
    · simp [hl] at hfq
    · rcases hv : q.2 with _ | v
      · simp [hl, hv] at hfq
      · simp only [hl, hv, Option.some.injEq] at hfq
        subst hfq
        exact ⟨lookup_mem_map_snd field_mapping q.1 col hl, q, hq, hl, hv⟩
  · intro f v rest h
    exact insertCols_unmapped_drop f v rest h
  · intro o db enc hconn hall
    have hnil := insertCols_nil_of_unmapped enc.fields hall
    constructor
    · unfold store_encrypted_user
      simp [hconn, hnil]
    · unfold store_encrypted_user
      simp [hconn, hnil, Conn.open, Conn.rollback]
  · intro o db enc uid c h
    obtain ⟨_, hc⟩ := store_ok_state o db enc uid c h
    subst hc
    simp [createdState]

/-- Witness for C10: the field `city_encrypted` (classified level 2 under the
name `city`) is not in the allowlist and is dropped; a payload containing
only it fails with `ValueError` and leaves the database unchanged. -/
theorem c10_witness :
    insertCols [("city_encrypted", some "x"), ("email", some "a@b.com")] =
      insertCols [("email", some "a@b.com")] ∧
    ((store_encrypted_user oracleOK emptyDB ⟨[("city_encrypted", some "x")], []⟩).1 =
      .error ⟨"ValueError", "No valid fields to insert"⟩ ∧
     (store_encrypted_user oracleOK emptyDB
        ⟨[("city_encrypted", some "x")], []⟩).2.base = emptyDB) :=
  ⟨c10_static_allowlist.2.1 "city_encrypted" (some "x")
     [("email", some "a@b.com")] (by decide),
   c10_static_allowlist.2.2.1 oracleOK emptyDB ⟨[("city_encrypted", some "x")], []⟩
     rfl (by decide)⟩


/-! ## C8: audit writes are best-effort and invisible to results -/

theorem log_audit_preserves (ok : Bool) (db : DB) (uid : Option Nat)
    (f op : String) (s : Bool) (e : Option String) :
    (log_audit ok db uid f op s e).users = db.users ∧
    (log_audit ok db uid f op s e).meta = db.meta := by
  cases ok <;> simp [log_audit, log_audit_attempt]

theorem decryptGetLoop_fst_indep (crypto : ExternalCrypto)
    (keysE : Except PyExc AppKeys) (uid : Nat) (md : List (String × FieldMeta)) :
    ∀ (fields : List (String × Option String)) (a1 a2 : Nat → Bool)
      (i1 i2 : Nat) (db1 db2 : DB),
      (decryptGetLoop crypto keysE a1 uid md fields i1 db1).1 =
      (decryptGetLoop crypto keysE a2 uid md fields i2 db2).1 := by
  intro fields
  induction fields with
  | nil => intros; rfl
  | cons fv rest ih =>
    intro a1 a2 i1 i2 db1 db2
    obtain ⟨f, v⟩ := fv
    cases v with
    | none =>
      simp only [decryptGetLoop]
      exact ih a1 a2 i1 i2 db1 db2
    | some v =>
      simp only [decryptGetLoop]
      by_cases hf : pyEndsWith f "_encrypted"
      · simp only [hf, if_true, reduceIte]
        cases hd : decrypt_field crypto keysE (pyReplace f "_encrypted" "") (some v)
            (some ((md.lookup (pyReplace f "_encrypted" "")).getD
              ⟨none, none, none, none⟩)) with
        | error e => rfl
        | ok dv =>
          exact congrArg (Except.map fun out => (pyReplace f "_encrypted" "", dv) :: out)
            (ih a1 a2 (i1 + 1) (i2 + 1)
              (log_audit (a1 i1) db1 (some uid) (pyReplace f "_encrypted" "")
                "decrypt" true none)
              (log_audit (a2 i2) db2 (some uid) (pyReplace f "_encrypted" "")
                "decrypt" true none))
      · simp only [if_neg hf]
        exact congrArg (Except.map fun out => (f, some v) :: out)
          (ih a1 a2 i1 i2 db1 db2)

/-- C8: a failing audit write is swallowed inside `log_audit` (only the audit
table can differ — users and metadata are untouched), and the responses of
the surrounding create and get operations are identical for every audit
oracle, i.e. whether or not any audit write succeeds.  (The encrypt and
decrypt operations never call the audit logger at all.) -/
theorem c8_audit_best_effort :
    (∀ (ok : Bool) (db : DB) (uid : Option Nat) (f op : String) (s : Bool)
       (e : Option String),
      (log_audit ok db uid f op s e).users = db.users ∧
      (log_audit ok db uid f op s e).meta = db.meta) ∧
    (∀ (crypto : ExternalCrypto) (keysE : Except PyExc AppKeys) (o : DbOracle)
       (a1 a2 : Nat → Bool) (db : DB) (event : Event),
      (handle_create_user_operation crypto keysE o a1 db event).1 =
      (handle_create_user_operation crypto keysE o a2 db event).1) ∧
    (∀ (crypto : ExternalCrypto) (keysE : Except PyExc AppKeys) (o : DbOracle)
       (a1 a2 : Nat → Bool) (db : DB) (event : Event),
      (handle_get_user_operation crypto keysE o a1 db event).1 =
      (handle_get_user_operation crypto keysE o a2 db event).1) := by
  refine ⟨log_audit_preserves, ?_, ?_⟩
  · intro crypto keysE o a1 a2 db event
    unfold handle_create_user_operation
    by_cases hd : (event.data.getD []).isEmpty
    · simp [hd]
    · simp only [if_neg hd]
      cases hl : encryptLoop crypto keysE (event.data.getD []) with
      | error e => rfl
      | ok p =>
        obtain ⟨fields, meta⟩ := p
        dsimp only []
        rcases hs : store_encrypted_user o db ⟨fields, meta⟩ with ⟨res, c⟩
        cases res with
        | error e => rfl
        | ok uid => rfl
  · intro crypto keysE o a1 a2 db event
    unfold handle_get_user_operation
    cases event.user_id with
    | none => rfl
    | some uid =>
      dsimp only []
      cases hr : retrieve_encrypted_user o db uid with
      | error e => rfl
      | ok p =>
        obtain ⟨encrypted_data, metaDict⟩ := p
        dsimp only []
        have heq := decryptGetLoop_fst_indep crypto keysE uid metaDict
          encrypted_data a1 a2 0 0 db db
        rcases h1 : decryptGetLoop crypto keysE a1 uid metaDict encrypted_data 0 db
          with ⟨r1, d1⟩
        rcases h2 : decryptGetLoop crypto keysE a2 uid metaDict encrypted_data 0 db
          with ⟨r2, d2⟩
        rw [h1, h2] at heq
        simp only [] at heq
        subst heq
        cases r1 with
        | error e => rfl
        | ok out => rfl


/-! ## C3: partial-failure isolation on read -/

theorem lookup_mem {α β : Type} [BEq α] [LawfulBEq α] :
    ∀ (l : List (α × β)) (a : α) (b : β), l.lookup a = some b → (a, b) ∈ l := by
  intro l
  induction l with
  | nil => intro a b h; simp [List.lookup] at h
  | cons p rest ih =>
    intro a b h
    obtain ⟨k, v⟩ := p
    unfold List.lookup at h
    by_cases hab : a == k
    · simp only [hab] at h
      simp only [Option.some.injEq] at h
      subst h
      have : a = k := eq_of_beq hab
      subst this
      simp
    · simp only [Bool.not_eq_true] at hab
      simp only [hab] at h
      exact List.mem_cons_of_mem _ (ih a b h)

theorem gen_getLoop_ok (crypto : ExternalCrypto) (mm : List (String × Option Nat))
    (hwf : ∀ p ∈ mm, p.2 ≠ none) :
    ∀ cols : List (String × Option String),
      ∃ out, Gen.getLoop crypto mm cols = .ok out ∧
        ∀ (c v : String), (c, some v) ∈ cols →
          ∀ level,
            mm.lookup ((Gen.reverse_mapping.lookup c).getD c) = some (some level) →
            1 < level →
            ((∀ e, Gen.decrypt_field crypto ((Gen.reverse_mapping.lookup c).getD c)
                (some v) (some level) = .error e →
              (((Gen.reverse_mapping.lookup c).getD c),
                some "[DECRYPTION_FAILED]") ∈ out) ∧
             (∀ w, Gen.decrypt_field crypto ((Gen.reverse_mapping.lookup c).getD c)
                (some v) (some level) = .ok w →
              (((Gen.reverse_mapping.lookup c).getD c), w) ∈ out)) := by
  intro cols
  induction cols with
  | nil => exact ⟨[], rfl, by intro c v hmem; simp at hmem⟩
  | cons p rest ih =>
    obtain ⟨db_field, value⟩ := p
    obtain ⟨out2, hout2, ihmem⟩ := ih
    cases value with
    | none =>
      refine ⟨((Gen.reverse_mapping.lookup db_field).getD db_field, none) :: out2, ?_, ?_⟩
      · simp only [Gen.getLoop, hout2, bind, Except.bind]
      · intro c v hmem level hlk hlevel
        rcases List.mem_cons.mp hmem with heq | hrest
        · simp at heq
        · have h := ihmem c v hrest level hlk hlevel
          exact ⟨fun e he => List.mem_cons_of_mem _ ((h.1) e he),
                 fun w hw => List.mem_cons_of_mem _ ((h.2) w hw)⟩
    | some v0 =>
      cases hlk0 : mm.lookup ((Gen.reverse_mapping.lookup db_field).getD db_field) with
      | none =>
        refine ⟨((Gen.reverse_mapping.lookup db_field).getD db_field, some v0) :: out2,
          ?_, ?_⟩
        · simp only [Gen.getLoop, hout2, hlk0, bind, Except.bind]
        · intro c v hmem level hlk hlevel
          rcases List.mem_cons.mp hmem with heq | hrest
          · simp only [Prod.mk.injEq, Option.some.injEq] at heq
            obtain ⟨hc0, hv0⟩ := heq
            subst hc0
            rw [hlk0] at hlk
            cases hlk
          · have h := ihmem c v hrest level hlk hlevel
            exact ⟨fun e he => List.mem_cons_of_mem _ ((h.1) e he),
                   fun w hw => List.mem_cons_of_mem _ ((h.2) w hw)⟩
      | some lv =>
        have hlvne : lv ≠ none :=
          hwf _ (lookup_mem mm _ lv hlk0)
        cases lv with
        | none => exact absurd rfl hlvne
        | some level0 =>
          by_cases hgt : 1 < level0
          · cases hdec : Gen.decrypt_field crypto
                ((Gen.reverse_mapping.lookup db_field).getD db_field)
                (some v0) (some level0) with
            | error e0 =>
              refine ⟨((Gen.reverse_mapping.lookup db_field).getD db_field,
                some "[DECRYPTION_FAILED]") :: out2, ?_, ?_⟩
              · simp only [Gen.getLoop, hout2, hlk0, hdec, hgt, if_true, bind,
                  Except.bind, reduceIte]
              · intro c v hmem level hlk hlevel
                rcases List.mem_cons.mp hmem with heq | hrest
                · simp only [Prod.mk.injEq, Option.some.injEq] at heq
                  obtain ⟨hc0, hv0⟩ := heq
                  subst hc0
                  subst hv0
                  rw [hlk0] at hlk
                  simp only [Option.some.injEq] at hlk
                  subst hlk
                  refine ⟨fun e he => List.mem_cons_self _ _, fun w hw => ?_⟩
                  rw [hdec] at hw
                  cases hw
                · have h := ihmem c v hrest level hlk hlevel
                  exact ⟨fun e he => List.mem_cons_of_mem _ ((h.1) e he),
                         fun w hw => List.mem_cons_of_mem _ ((h.2) w hw)⟩
            | ok d =>
              refine ⟨((Gen.reverse_mapping.lookup db_field).getD db_field, d) :: out2,
                ?_, ?_⟩
              · simp only [Gen.getLoop, hout2, hlk0, hdec, hgt, if_true, bind,
                  Except.bind, reduceIte]
              · intro c v hmem level hlk hlevel
                rcases List.mem_cons.mp hmem with heq | hrest
                · simp only [Prod.mk.injEq, Option.some.injEq] at heq
                  obtain ⟨hc0, hv0⟩ := heq
                  subst hc0
                  subst hv0
                  rw [hlk0] at hlk
                  simp only [Option.some.injEq] at hlk
                  subst hlk
                  refine ⟨fun e he => ?_, fun w hw => ?_⟩
                  · rw [hdec] at he
                    cases he
                  · rw [hdec] at hw
                    simp only [Except.ok.injEq] at hw
                    subst hw
                    exact List.mem_cons_self _ _
                · have h := ihmem c v hrest level hlk hlevel
                  exact ⟨fun e he => List.mem_cons_of_mem _ ((h.1) e he),
                         fun w hw => List.mem_cons_of_mem _ ((h.2) w hw)⟩
          · refine ⟨((Gen.reverse_mapping.lookup db_field).getD db_field, some v0) :: out2,
              ?_, ?_⟩
            · simp only [Gen.getLoop, hout2, hlk0, hgt, if_false, bind,
                Except.bind, reduceIte]
            · intro c v hmem level hlk hlevel
              rcases List.mem_cons.mp hmem with heq | hrest
              · simp only [Prod.mk.injEq, Option.some.injEq] at heq
                obtain ⟨hc0, hv0⟩ := heq
                subst hc0
                rw [hlk0] at hlk
                simp only [Option.some.injEq] at hlk
                subst hlk
                exact absurd hlevel hgt
              · have h := ihmem c v hrest level hlk hlevel
                exact ⟨fun e he => List.mem_cons_of_mem _ ((h.1) e he),
                       fun w hw => List.mem_cons_of_mem _ ((h.2) w hw)⟩

/-- C3 (amended): on the generated read path (`DatabaseOperations.get_user`),
a per-field decryption failure never aborts the read — the call still
succeeds, the failed field is rendered as the `[DECRYPTION_FAILED]` sentinel,
and every field whose decryption succeeds appears with its decrypted value.
(On the package read path, `handle_get_user_operation` re-raises instead —
see the counterexample; the list path reads level-1 columns only and never
decrypts.) -/
theorem c3_partial_failure_isolation (crypto : ExternalCrypto) (o : DbOracle)
    (db : DB) (uid : Nat) (row : UserRow)
    (hc : o.connect = true) (hsu : o.selectUser = true) (hsm : o.selectMeta = true)
    (hfind : (db.users.find? fun u => u.id = uid) = some row)
    (hwf : ∀ r ∈ db.meta, r.pii_level ≠ none) :
    ∃ out, Gen.get_user crypto o db uid = .ok (some (uid, out)) ∧
      ∀ (c v : String), (c, some v) ∈ row.cols →
        ∀ level,
          (((db.meta.filter fun r => r.user_id = uid).map fun r =>
              (r.field_name, r.pii_level)).lookup
            ((Gen.reverse_mapping.lookup c).getD c)) = some (some level) →
          1 < level →
          ((∀ e, Gen.decrypt_field crypto ((Gen.reverse_mapping.lookup c).getD c)
              (some v) (some level) = .error e →
            (((Gen.reverse_mapping.lookup c).getD c),
              some "[DECRYPTION_FAILED]") ∈ out) ∧
           (∀ w, Gen.decrypt_field crypto ((Gen.reverse_mapping.lookup c).getD c)
              (some v) (some level) = .ok w →
            (((Gen.reverse_mapping.lookup c).getD c), w) ∈ out)) := by
  have hwfmm : ∀ p ∈ ((db.meta.filter fun r => r.user_id = uid).map fun r =>
      (r.field_name, r.pii_level)), p.2 ≠ none := by
    intro p hp
    rw [List.mem_map] at hp
    obtain ⟨r, hr, hpr⟩ := hp
    subst hpr
    exact hwf r (List.mem_of_mem_filter hr)
  obtain ⟨out, hout, hmem⟩ := gen_getLoop_ok crypto
    ((db.meta.filter fun r => r.user_id = uid).map fun r =>
      (r.field_name, r.pii_level)) hwfmm row.cols
  refine ⟨out, ?_, hmem⟩
  unfold Gen.get_user
  simp only [hc, hsu, hsm, not_true_eq_false, if_false, reduceIte, hfind, hout]

/-- Witness for C3 (amended): in a database whose one user holds a plaintext
email and an undecryptable level-3 `ssn_encrypted` value, the generated
`get_user` succeeds and maps `ssn` to the sentinel. -/
theorem c3_witness :
    ∃ out, Gen.get_user concreteCrypto oracleOK db3 0 = .ok (some (0, out)) ∧
      ("ssn", some "[DECRYPTION_FAILED]") ∈ out := by
  obtain ⟨out, hok, hmem⟩ := c3_partial_failure_isolation concreteCrypto oracleOK
    db3 0 ⟨0, [("email", some "a@b.com"), ("ssn_encrypted", some "junk")]⟩
    rfl rfl rfl (by decide) (by decide)
  exact ⟨out, hok,
    (hmem "ssn_encrypted" "junk" (by decide) 3 (by decide) (by decide)).1
      b64Err (by decide)⟩

/-- Counterexample to C3 as stated: on the package read path the same
database aborts the whole `get_user` — the decryption failure of
`ssn_encrypted` is re-raised even though the `email` field was returnable. -/
theorem c3_counterexample :
    db3.users = [⟨0, [("email", some "a@b.com"), ("ssn_encrypted", some "junk")]⟩] ∧
    (handle_get_user_operation concreteCrypto (.ok appKeys0) oracleOK
      (fun _ => true) db3 event3).1 = .error b64Err := by
  refine ⟨rfl, by decide⟩


/-! ## C4: metadata rows exist exactly for level-2/3 fields (package pipeline) -/

theorem classify_cases (f : String) :
    classify_pii_level f = 1 ∨ classify_pii_level f = 2 ∨ classify_pii_level f = 3 := by
  unfold classify_pii_level
  dsimp only []
  split_ifs <;> simp

theorem encrypt_field_level1_eq (crypto : ExternalCrypto) (keysE : Except PyExc AppKeys)
    (name v : String) (h1 : classify_pii_level name = 1) (hv : v ≠ "") :
    encrypt_field crypto keysE name (some v) =
      .ok ⟨some v, false, 1, name, some "rds_only", none, none⟩ := by
  unfold encrypt_field get_encryption_requirements
  simp [hv, h1]

theorem encrypt_field_empty_eq (crypto : ExternalCrypto) (keysE : Except PyExc AppKeys)
    (name : String) :
    encrypt_field crypto keysE name (some "") =
      .ok ⟨none, false, 1, name, none, none, none⟩ := by
  unfold encrypt_field
  simp

theorem encrypt_field_ok_level (crypto : ExternalCrypto) (keysE : Except PyExc AppKeys)
    (name v : String) (r : EncryptResult) (hv : v ≠ "")
    (h : encrypt_field crypto keysE name (some v) = .ok r) :
    r.level = classify_pii_level name := by
  rcases classify_cases name with h1 | h2 | h3
  · rw [encrypt_field_level1_eq crypto keysE name v h1 hv] at h
    rw [← Except.ok.inj h, h1]
  · rw [encrypt_field_level2_eq crypto keysE name v h2 hv] at h
    rw [← Except.ok.inj h, h2]
  · obtain ⟨keys, k, _, _, hr⟩ :=
      encrypt_field_level3_inv crypto keysE name v r h3 hv h
    rw [hr, h3]

theorem metaKeys_cons_none (f : String) (rest : List (String × Option String)) :
    metaKeys ((f, none) :: rest) = metaKeys rest := by
  simp [metaKeys, List.filterMap_cons]

theorem metaKeys_cons_some (f v : String) (rest : List (String × Option String)) :
    metaKeys ((f, some v) :: rest) =
      if v ≠ "" ∧ 2 ≤ classify_pii_level f then f :: metaKeys rest
      else metaKeys rest := by
  simp only [metaKeys, List.filterMap_cons]
  by_cases h : v ≠ "" ∧ 2 ≤ classify_pii_level f
  · simp [h]
  · simp [h]

theorem encryptLoop_meta (crypto : ExternalCrypto) (keysE : Except PyExc AppKeys) :
    ∀ (data fields : List (String × Option String))
      (meta : List (String × FieldMeta)),
      encryptLoop crypto keysE data = .ok (fields, meta) →
      meta.map Prod.fst = metaKeys data ∧
      ∀ fm ∈ meta, fm.2.level = some (classify_pii_level fm.1) ∧
        2 ≤ classify_pii_level fm.1 := by
  intro data
  induction data with
  | nil =>
    intro fields meta h
    simp only [encryptLoop] at h
    obtain ⟨hf, hm⟩ := Prod.mk.injEq .. ▸ Except.ok.inj h
    refine ⟨by rw [← hm]; rfl, ?_⟩
    intro fm hfm
    rw [← hm] at hfm
    simp at hfm
  | cons fv rest ih =>
    intro fields meta h
    obtain ⟨f, v⟩ := fv
    cases v with
    | none =>
      simp only [encryptLoop] at h
      have := ih fields meta h
      rw [metaKeys_cons_none]
      exact this
    | some v =>
      simp only [encryptLoop, bind, Except.bind] at h
      cases henc : encrypt_field crypto keysE f (some v) with
      | error e => rw [henc] at h; cases h
      | ok r =>
        rw [henc] at h
        cases hrest : encryptLoop crypto keysE rest with
        | error e => rw [hrest] at h; cases h
        | ok p =>
          obtain ⟨fields2, meta2⟩ := p
          rw [hrest] at h
          obtain ⟨hkeys, hlvl⟩ := ih fields2 meta2 hrest
          by_cases hv0 : v = ""
          · subst hv0
            rw [encrypt_field_empty_eq crypto keysE f] at henc
            have hr := Except.ok.inj henc
            rw [← hr] at h
            simp only [reduceIte] at h
            obtain ⟨hf, hm⟩ := Prod.mk.injEq .. ▸ Except.ok.inj h
            rw [metaKeys_cons_some]
            simp only [ne_eq, not_true_eq_false, false_and, if_false, reduceIte]
            rw [← hm]
            exact ⟨hkeys, hlvl⟩
          · have hlev := encrypt_field_ok_level crypto keysE f v r hv0 henc
            by_cases hr1 : r.level = 1
            · simp only [hr1, reduceIte] at h
              obtain ⟨hf, hm⟩ := Prod.mk.injEq .. ▸ Except.ok.inj h
              rw [metaKeys_cons_some]
              have hcls1 : classify_pii_level f = 1 := by rw [← hlev, hr1]
              simp only [hcls1, ne_eq, hv0, not_false_eq_true, true_and]
              rw [if_neg (by omega)]
              rw [← hm]
              exact ⟨hkeys, hlvl⟩
            · simp only [hr1, reduceIte] at h
              obtain ⟨hf, hm⟩ := Prod.mk.injEq .. ▸ Except.ok.inj h
              have hcls2 : 2 ≤ classify_pii_level f := by
                rcases classify_cases f with h1 | h2 | h3
                · exact absurd (by rw [hlev, h1]) hr1
                · omega
                · omega
              rw [metaKeys_cons_some]
              rw [if_pos ⟨hv0, hcls2⟩]
              rw [← hm]
              constructor
              · simp [hkeys]
              · intro fm hfm
                rcases List.mem_cons.mp hfm with heq | hmem
                · subst heq
                  refine ⟨?_, hcls2⟩
                  simp [metaOfResult, hlev]
                · exact hlvl fm hmem

theorem mem_metaKeys (data : List (String × Option String)) (f : String) :
    f ∈ metaKeys data ↔
      ∃ v, (f, some v) ∈ data ∧ v ≠ "" ∧ 2 ≤ classify_pii_level f := by
  unfold metaKeys
  rw [List.mem_filterMap]
  constructor
  · rintro ⟨⟨g, ov⟩, hmem, heq⟩
    cases ov with
    | none => simp at heq
    | some v =>
      dsimp only [] at heq
      by_cases hcond : v ≠ "" ∧ 2 ≤ classify_pii_level g
      · rw [if_pos hcond] at heq
        have hgf : g = f := Option.some.inj heq
        subst hgf
        exact ⟨v, hmem, hcond⟩
      · rw [if_neg hcond] at heq
        cases heq
  · rintro ⟨v, hmem, hv, hcls⟩
    exact ⟨(f, some v), hmem, by simp [hv, hcls]⟩

theorem metaKeys_sublist (data : List (String × Option String)) :
    List.Sublist (metaKeys data) (data.map Prod.fst) := by
  induction data with
  | nil => simp [metaKeys]
  | cons fv rest ih =>
    obtain ⟨f, v⟩ := fv
    cases v with
    | none =>
      rw [metaKeys_cons_none, List.map_cons]
      exact ih.cons f
    | some v =>
      rw [metaKeys_cons_some, List.map_cons]
      by_cases h : v ≠ "" ∧ 2 ≤ classify_pii_level f
      · rw [if_pos h]
        exact ih.cons₂ f
      · rw [if_neg h]
        exact ih.cons f

theorem nodup_keys_value_eq {β : Type} :
    ∀ (l : List (String × β)), (l.map Prod.fst).Nodup →
      ∀ (a : String) (b1 b2 : β), (a, b1) ∈ l → (a, b2) ∈ l → b1 = b2 := by
  intro l
  induction l with
  | nil => intro _ a b1 b2 h; simp at h
  | cons p rest ih =>
    intro hnd a b1 b2 h1 h2
    obtain ⟨k, v⟩ := p
    rw [List.map_cons, List.nodup_cons] at hnd
    obtain ⟨hk, hndr⟩ := hnd
    rcases List.mem_cons.mp h1 with he1 | hm1 <;>
      rcases List.mem_cons.mp h2 with he2 | hm2
    · rw [Prod.mk.injEq] at he1 he2
      rw [he1.2, he2.2]
    · have hak : a = k := congrArg Prod.fst he1
      subst hak
      exact absurd (List.mem_map_of_mem Prod.fst hm2) hk
    · have hak : a = k := congrArg Prod.fst he2
      subst hak
      exact absurd (List.mem_map_of_mem Prod.fst hm1) hk
    · exact ih hndr a b1 b2 hm1 hm2

theorem rows_filter_zero (uid : Nat) (f : String) :
    ∀ (meta : List (String × FieldMeta)), f ∉ meta.map Prod.fst →
      ((meta.map fun fm => metaRowOf uid fm.1 fm.2).filter
        fun r => r.user_id = uid ∧ r.field_name = f).length = 0 := by
  intro meta
  induction meta with
  | nil => intro _; rfl
  | cons fm rest ih =>
    intro hni
    obtain ⟨g, m⟩ := fm
    rw [List.map_cons, List.mem_cons] at hni
    push_neg at hni
    obtain ⟨hgf, hrest⟩ := hni
    simp only [List.map_cons, List.filter_cons]
    rw [if_neg (by
      simp only [metaRowOf, decide_eq_true_eq, not_and]
      intro _ h
      exact hgf h.symm)]
    exact ih hrest

theorem rows_count (uid : Nat) (f : String) :
    ∀ (meta : List (String × FieldMeta)), (meta.map Prod.fst).Nodup →
      ((meta.map fun fm => metaRowOf uid fm.1 fm.2).filter
        fun r => r.user_id = uid ∧ r.field_name = f).length =
      if f ∈ meta.map Prod.fst then 1 else 0 := by
  intro meta
  induction meta with
  | nil => intro _; simp
  | cons fm rest ih =>
    intro hnd
    obtain ⟨g, m⟩ := fm
    rw [List.map_cons, List.nodup_cons] at hnd
    obtain ⟨hg, hndr⟩ := hnd
    simp only [List.map_cons, List.filter_cons]
    by_cases hgf : g = f
    · subst hgf
      rw [if_pos (by simp [metaRowOf])]
      rw [List.length_cons, rows_filter_zero uid g rest hg]
      simp
    · rw [if_neg (by
        simp only [metaRowOf, decide_eq_true_eq, not_and]
        intro _ h
        exact hgf h)]
      rw [ih hndr]
      simp only [List.mem_cons]
      by_cases hf : f ∈ rest.map Prod.fst
      · rw [if_pos hf, if_pos (Or.inr hf)]
      · rw [if_neg hf, if_neg (by rintro (h | h); exact hgf h.symm; exact hf h)]

theorem old_rows_zero (dbmeta : List MetaRow) (nid : Nat) (f : String)
    (hwf : ∀ r ∈ dbmeta, r.user_id < nid) :
    (dbmeta.filter fun r => r.user_id = nid ∧ r.field_name = f).length = 0 := by
  rw [List.length_eq_zero]
  rw [List.filter_eq_nil_iff]
  intro r hr
  have := hwf r hr
  simp only [decide_eq_true_eq, not_and]
  intro h1
  omega

theorem auditEncryptLoop_meta (a : Nat → Bool) (uid : Nat) :
    ∀ (l : List (String × Option String)) (i : Nat) (db : DB),
      (auditEncryptLoop a uid l i db).meta = db.meta ∧
      (auditEncryptLoop a uid l i db).users = db.users := by
  intro l
  induction l with
  | nil => intro i db; exact ⟨rfl, rfl⟩
  | cons fv rest ih =>
    intro i db
    obtain ⟨f, v⟩ := fv
    simp only [auditEncryptLoop]
    have h1 := ih (i + 1) (log_audit (a i) db (some uid) f "encrypt" true none)
    have h2 := log_audit_preserves (a i) db (some uid) f "encrypt" true none
    exact ⟨h1.1.trans h2.2, h1.2.trans h2.1⟩

/-- C4 (amended to the package pipeline): after a successful
`handle_create_user_operation`, the new user's metadata rows are exactly one
row per input field whose value is present and non-empty and whose
classified (recorded) level is at least 2; every new metadata row carries a
recorded `pii_level` of at least 2 and belongs to an input field.  In
particular no metadata row is written for a level-1 field on this pipeline.
(The generated `create_user` violates the claim — see the counterexample.) -/
theorem c4_metadata_iff_level (crypto : ExternalCrypto)
    (keysE : Except PyExc AppKeys) (o : DbOracle) (audit : Nat → Bool)
    (db : DB) (event : Event) (data : List (String × Option String))
    (resp : Response) (db2 : DB)
    (hdata : event.data = some data)
    (hnd : (data.map Prod.fst).Nodup)
    (hwf : ∀ r ∈ db.meta, r.user_id < db.next_id)
    (h : handle_create_user_operation crypto keysE o audit db event = (.ok resp, db2)) :
    (∀ f v, (f, v) ∈ data →
      (db2.meta.filter fun r => r.user_id = db.next_id ∧ r.field_name = f).length
        = if v ≠ none ∧ v ≠ some "" ∧ 2 ≤ classify_pii_level f then 1 else 0) ∧
    (∀ r ∈ db2.meta, r.user_id = db.next_id →
      r.field_name ∈ data.map Prod.fst ∧ ∃ l, r.pii_level = some l ∧ 2 ≤ l) := by
  unfold handle_create_user_operation at h
  rw [hdata] at h
  simp only [Option.getD_some] at h
  by_cases hempty : data.isEmpty
  · rw [if_pos hempty] at h
    exact absurd (congrArg Prod.fst h) (by simp)
  · rw [if_neg hempty] at h
    cases hl : encryptLoop crypto keysE data with
    | error e =>
      rw [hl] at h
      exact absurd (congrArg Prod.fst h) (by simp)
    | ok p =>
      obtain ⟨fields, meta⟩ := p
      rw [hl] at h
      dsimp only [] at h
      rcases hs : store_encrypted_user o db ⟨fields, meta⟩ with ⟨res, c⟩
      rw [hs] at h
      cases res with
      | error e => exact absurd (congrArg Prod.fst h) (by simp)
      | ok uid =>
        have hdb2 : db2 = auditEncryptLoop audit uid data 0 c.base :=
          (congrArg Prod.snd h).symm
        obtain ⟨huid, hc⟩ := store_ok_state o db ⟨fields, meta⟩ uid c hs
        subst hc
        obtain ⟨hkeys, hlvl⟩ := encryptLoop_meta crypto keysE data fields meta hl
        have hmeta2 : db2.meta =
            db.meta ++ meta.map fun fm => metaRowOf db.next_id fm.1 fm.2 := by
          rw [hdb2]
          rw [(auditEncryptLoop_meta audit uid data 0 _).1]
          simp [createdState]
        constructor
        · intro f v hfv
          rw [hmeta2, List.filter_append, List.length_append]
          rw [old_rows_zero db.meta db.next_id f hwf]
          have hnodup_meta : (meta.map Prod.fst).Nodup := by
            rw [hkeys]
            exact hnd.sublist (metaKeys_sublist data)
          rw [rows_count db.next_id f meta hnodup_meta]
          rw [hkeys, Nat.zero_add]
          by_cases hcond : v ≠ none ∧ v ≠ some "" ∧ 2 ≤ classify_pii_level f
          · rw [if_pos hcond]
            obtain ⟨hvn, hve, hcls⟩ := hcond
            cases v with
            | none => exact absurd rfl hvn
            | some v0 =>
              have hv0 : v0 ≠ "" := fun he => hve (by rw [he])
              rw [if_pos ((mem_metaKeys data f).mpr ⟨v0, hfv, hv0, hcls⟩)]
          · rw [if_neg hcond]
            rw [if_neg ?hnotmem]
            case hnotmem =>
              intro hmem
              obtain ⟨v2, hmem2, hv2, hcls2⟩ := (mem_metaKeys data f).mp hmem
              have hveq : v = some v2 := nodup_keys_value_eq data hnd f v (some v2) hfv hmem2
              exact hcond ⟨by simp [hveq], by simp [hveq, hv2], hcls2⟩
        · intro r hr hruid
          rw [hmeta2] at hr
          rcases List.mem_append.mp hr with hold | hnew
          · have := hwf r hold
            omega
          · rw [List.mem_map] at hnew
            obtain ⟨fm, hfm, hfr⟩ := hnew
            subst hfr
            obtain ⟨hlevel_eq, hcls2⟩ := hlvl fm hfm
            constructor
            · have hmk : fm.1 ∈ meta.map Prod.fst := List.mem_map_of_mem Prod.fst hfm
              rw [hkeys] at hmk
              exact (metaKeys_sublist data).subset hmk
            · exact ⟨classify_pii_level fm.1, by simp [metaRowOf, hlevel_eq], hcls2⟩

/-- Counterexample to C4 as stated over the whole repository: the generated
`create_user` writes a metadata row with `pii_level = 1` for the level-1
field `email`. -/
theorem c4_counterexample :
    (Gen.create_user concreteCrypto oracleOK emptyDB [("email", some "a@b.com")]).1 =
      .ok 0 ∧
    (Gen.create_user concreteCrypto oracleOK emptyDB [("email", some "a@b.com")]).2.meta =
      [⟨0, "email", some 1, none, none, some "rds_only"⟩] := by
  refine ⟨by decide, by decide⟩

/-- Witness for C4 (amended): creating a user with `email` (level 1) and
`ssn` (level 3) yields exactly one metadata row for `ssn` and none for
`email`. -/
theorem c4_witness :
    ((handle_create_user_operation concreteCrypto (.ok appKeys0) oracleOK
        (fun _ => true) emptyDB
        ⟨some "create_user", some [("email", some "a"), ("ssn", some "123")],
         none, [], none, none, none⟩).2.meta.filter
      fun r => r.user_id = 0 ∧ r.field_name = "ssn").length = 1 ∧
    ((handle_create_user_operation concreteCrypto (.ok appKeys0) oracleOK
        (fun _ => true) emptyDB
        ⟨some "create_user", some [("email", some "a"), ("ssn", some "123")],
         none, [], none, none, none⟩).2.meta.filter
      fun r => r.user_id = 0 ∧ r.field_name = "email").length = 0 := by
  have h := c4_metadata_iff_level concreteCrypto (.ok appKeys0) oracleOK
    (fun _ => true) emptyDB
    ⟨some "create_user", some [("email", some "a"), ("ssn", some "123")],
     none, [], none, none, none⟩
    [("email", some "a"), ("ssn", some "123")]
    ⟨200, .created 0 true 2 "User created and encrypted successfully"⟩
    (handle_create_user_operation concreteCrypto (.ok appKeys0) oracleOK
      (fun _ => true) emptyDB
      ⟨some "create_user", some [("email", some "a"), ("ssn", some "123")],
       none, [], none, none, none⟩).2
    rfl (by decide) (by intro r hr; simp [emptyDB] at hr) (by decide)
  exact ⟨(h.1 "ssn" (some "123") (by decide)).trans (by decide),
         (h.1 "email" (some "a") (by decide)).trans (by decide)⟩

end PII
